import Mathlib

/-!
# KeepSync Notes — verification of the sync core

Shallow embedding of `keepsync_notes.py`: the `Note` data model, the
`DatabaseManager` operations, and the `KeepSyncEngine` synchronization cycle
(`sync`, `_pull_from_keep`, `_push_to_keep`), together with theorems settling
the specification claims about them.

Modelling conventions:
* timestamps (`datetime`) are natural numbers under the usual order;
  `datetime.min` is `0`, `isoformat` is `toString`;
* `uuid.uuid4()` and server-assigned Google Keep note ids are modelled by an
  injective supply `uuidOf` indexed by a counter threaded through the
  operations (the Python library guarantees global freshness; theorems that
  need freshness against pre-existing ids state it as a hypothesis);
* the SQLite tables are association lists; `INSERT OR REPLACE` is an upsert
  keyed on the primary key;
* `gkeepapi` provider calls that may raise are modelled by a `failing` set of
  local note ids whose provider call raises (caught per note, exactly as the
  `try/except` in `_push_to_keep` does), and a `cycle_raises` flag for an
  exception escaping the phases of `KeepSyncEngine.sync` (caught at the cycle
  boundary).
-/

namespace KeepSyncNotes

/-- Modelled from the spec: `uuid.uuid4()` (Python stdlib) and the Keep
server's id generator produce globally fresh identifiers; modelled as an
injective supply indexed by a counter. -/
def uuidOf (k : Nat) : String := String.mk (List.replicate (k + 1) 'u')

/-- `class SyncStatus(Enum)` from the source. -/
inductive SyncStatus where
  | local_only
  | synced
  | pending_push
  | pending_pull
  | conflict
  | deleted_remote
  | error
deriving DecidableEq

/-- `class NoteType(Enum)` from the source. -/
inductive NoteType where
  | note
  | checklist
deriving DecidableEq

/-- `@dataclass ChecklistItem` (fields in source order). -/
structure ChecklistItem where
  text : String
  checked : Bool
  id : String
deriving DecidableEq

/-- `@dataclass Note` from the source. -/
structure Note where
  id : String
  title : String
  content : String
  note_type : NoteType
  checklist_items : List ChecklistItem
  labels : List String
  pinned : Bool
  archived : Bool
  trashed : Bool
  color : String
  keep_id : Option String
  sync_status : SyncStatus
  local_modified : Option Nat
  remote_modified : Option Nat
  content_hash : String
  created_at : Nat
  updated_at : Nat
deriving DecidableEq

/-- Python `str(bool)` as used in the f-string of `Note.update_hash`. -/
def pyBool (b : Bool) : String := if b then "True" else "False"

/-- Python `json.dumps` of a string (escape sequences elided: the claims about
the hash concern determinism and field dependence, not byte-exact digests). -/
def jsonStr (s : String) : String := "\x22" ++ s ++ "\x22"

/-- `ChecklistItem.to_dict` rendered by `json.dumps` (key order and the
default `", "`/`": "` separators as in CPython). -/
def ChecklistItem.to_dict_json (i : ChecklistItem) : String :=
  "\x7b\x22id\x22: " ++ jsonStr i.id ++ ", \x22text\x22: " ++ jsonStr i.text ++
    ", \x22checked\x22: " ++ (if i.checked then "true" else "false") ++ "\x7d"

/-- `json.dumps([i.to_dict() for i in self.checklist_items])`. -/
def itemsJson (l : List ChecklistItem) : String :=
  "[" ++ String.intercalate ", " (l.map ChecklistItem.to_dict_json) ++ "]"

/-- The f-string
`f"{self.title}|{self.content}|{json.dumps(...)}|{self.pinned}|{self.archived}"`
from `Note.update_hash`. -/
def Note.hash_content (n : Note) : String :=
  n.title ++ "|" ++ n.content ++ "|" ++ itemsJson n.checklist_items ++ "|" ++
    pyBool n.pinned ++ "|" ++ pyBool n.archived

/-- Modelled from the spec: `hashlib.md5(...).hexdigest()` is Python-stdlib
code outside this repository. The digest is modelled as the identity on the
encoded content string — an arbitrary deterministic stand-in, adequate for
the claims about the hash (determinism and dependence on exactly the hashed
fields), which do not concern the digest's bit pattern. -/
def md5_hexdigest (s : String) : String := s

/-- `Note.update_hash` from the source (also run by `__post_init__` on every
`Note(...)` construction). -/
def Note.update_hash (n : Note) : Note :=
  { n with content_hash := md5_hexdigest n.hash_content }

/-- A row of the `sync_log` table. -/
structure SyncLogEntry where
  timestamp : Nat
  action : String
  note_id : String
  status : String
  message : String
deriving DecidableEq

/-- `@dataclass Label` from the source. -/
structure Label where
  id : String
  name : String
  color : String
  keep_id : Option String
deriving DecidableEq

/-- The state held by `DatabaseManager`: the four SQLite tables. -/
structure Db where
  notes : List Note
  labels : List Label
  settings : List (String × String)
  sync_log : List SyncLogEntry
deriving DecidableEq

/-- `SELECT * FROM notes WHERE id = ?` followed by `fetchone()`. -/
def db_get (db : Db) (note_id : String) : Option Note :=
  db.notes.find? (fun n => n.id == note_id)

/-- `INSERT OR REPLACE` keyed on the `id` primary key. -/
def upsert_note (n : Note) (notes : List Note) : List Note :=
  if notes.any (fun m => m.id == n.id) then
    notes.map (fun m => if m.id == n.id then n else m)
  else
    notes ++ [n]

/-- `DatabaseManager.save_note`: stamps `updated_at`, recomputes the content
hash, and upserts the row.  The Python returns `False` only when SQLite
raises; the embedded store does not fail. -/
def save_note (now : Nat) (note : Note) (db : Db) : Bool × Db :=
  let n2 := Note.update_hash { note with updated_at := now }
  (true, { db with notes := upsert_note n2 db.notes })

/-- `DatabaseManager.delete_note`: permanent delete removes the row, soft
delete sets `trashed = 1` and stamps `updated_at` on the matching row. -/
def delete_note (now : Nat) (note_id : String) (permanent : Bool) (db : Db) :
    Bool × Db :=
  if permanent then
    (true, { db with notes := db.notes.filter (fun n => !(n.id == note_id)) })
  else
    (true, { db with notes := db.notes.map (fun n =>
      if n.id == note_id then { n with trashed := true, updated_at := now } else n) })

/-- `DatabaseManager.restore_note`: clears `trashed` and stamps `updated_at`
on the matching row. -/
def restore_note (now : Nat) (note_id : String) (db : Db) : Bool × Db :=
  (true, { db with notes := db.notes.map (fun n =>
    if n.id == note_id then { n with trashed := false, updated_at := now } else n) })

/-- `DatabaseManager.log_sync`: appends a row to the `sync_log` table. -/
def log_sync (now : Nat) (action note_id status message : String) (db : Db) : Db :=
  { db with sync_log := db.sync_log ++ [⟨now, action, note_id, status, message⟩] }

/-- `DatabaseManager.set_setting`: upsert on the `settings` table. -/
def set_setting (key value : String) (db : Db) : Db :=
  { db with settings :=
      if db.settings.any (fun p => p.1 == key) then
        db.settings.map (fun p => if p.1 == key then (key, value) else p)
      else
        db.settings ++ [(key, value)] }

/-! ## Store queries, export and import -/

/-- `ORDER BY pinned DESC, updated_at DESC`: `a` sorts no later than `b`. -/
def order_before (a b : Note) : Bool :=
  (a.pinned && !b.pinned) || ((a.pinned == b.pinned) && b.updated_at ≤ a.updated_at)

/-- Insertion step of the `ORDER BY` model. -/
def insert_ordered (n : Note) : List Note → List Note
  | [] => [n]
  | m :: rest =>
    if order_before n m then n :: m :: rest else m :: insert_ordered n rest

/-- The `ORDER BY pinned DESC, updated_at DESC` sort (SQLite's sorting
algorithm is not part of this repository; modelled as an insertion sort
realizing that ordering). -/
def sort_notes : List Note → List Note
  | [] => []
  | n :: rest => insert_ordered n (sort_notes rest)

/-- `DatabaseManager.get_all_notes(include_trashed, include_archived)`. -/
def get_all_notes (db : Db) (include_trashed include_archived : Bool) : List Note :=
  sort_notes (db.notes.filter (fun n =>
    (include_trashed || !n.trashed) && (include_archived || !n.archived)))

/-- `Note.to_dict` / `Note.from_dict` transport every field of the note; the
serialized dict is modelled by the note record itself (ISO-8601 and enum
encodings are bijections, elided).  `from_dict` calls the `Note(...)`
constructor, so `__post_init__` recomputes the content hash. -/
def note_from_dict (d : Note) : Note := Note.update_hash d

/-- The export document `{version, exported_at, notes, labels}` written by
`NotesApp._export_notes`. -/
structure ExportDoc where
  version : Nat
  exported_at : Nat
  notes : List Note
  labels : List Label
deriving DecidableEq

/-- `NotesApp._export_notes` (the dialog and file I/O around it excluded):
all notes including trashed and archived, plus all labels. -/
def export_notes (now : Nat) (db : Db) : ExportDoc :=
  { version := 1
    exported_at := now
    notes := get_all_notes db true true
    labels := db.labels }

/-- The per-note body of the import loop for the app's own export format:
`Note.from_dict`, then a regenerated id, cleared `keep_id`, status
`local_only`, and `save_note`. -/
def import_loop (now : Nat) : List Note → Nat → Db → Nat → Nat × Db × Nat
  | [], imported, db, c => (imported, db, c)
  | d :: rest, imported, db, c =>
    let n0 := note_from_dict d
    let n := { n0 with
      id := uuidOf c
      keep_id := none
      sync_status := SyncStatus.local_only }
    let (ok, db') := save_note now n db
    import_loop now rest (imported + (if ok then 1 else 0)) db' (c + 1)

/-- The comparison key of the round-trip property: title + body + labels. -/
def note_content_key (n : Note) : String × String × List String :=
  (n.title, n.content, n.labels)

/-- `NotesApp._import_notes` on a document of the app's own export format
(a dict that has a `"notes"` key, no `"textContent"` key, and is not a list —
exactly what `_export_notes` produces, so import takes this branch). -/
def import_notes (doc : ExportDoc) (now : Nat) (db : Db) (c : Nat) :
    Nat × Db × Nat :=
  import_loop now doc.notes 0 db c

/-! ## The Google Keep side (`gkeepapi` objects as seen through the engine) -/

/-- A `gkeepapi` note as the engine reads it: `id`, `title`, `text`,
checklist `items` (text, checked), `labels.all()` names, the flags, the
color tag, and `timestamps.updated` / `timestamps.created`. -/
structure KeepNote where
  id : String
  title : String
  text : String
  items : List (String × Bool)
  labels : List String
  pinned : Bool
  archived : Bool
  trashed : Bool
  color : String
  updated : Nat
  created : Option Nat
deriving DecidableEq

/-- Lookup of a remote note by id (`self.keep.get(keep_id)` / the position of
a given id inside the fetched snapshot). -/
def rem_get (rem : List KeepNote) (kid : String) : Option KeepNote :=
  rem.find? (fun kn => kn.id == kid)

/-- The fresh `ChecklistItem(text=item.text, checked=item.checked)` list built
by `_keep_note_to_local` — each constructed item draws a fresh uuid for its
`id` field (the dataclass default). -/
def fresh_items (c : Nat) : List (String × Bool) → List ChecklistItem × Nat
  | [] => ([], c)
  | (t, ch) :: rest =>
    let (l, c') := fresh_items (c + 1) rest
    (⟨t, ch, uuidOf c⟩ :: l, c')

/-- `KeepSyncEngine._keep_note_to_local`: converts a fetched Keep note to a
local `Note`, keeping the existing local id and creation time when updating.
Note that the Python builds a brand-new `Note(...)`: `local_modified` resets
to `None`, `sync_status` to the dataclass default (the caller overrides it),
and `__post_init__` recomputes the content hash. -/
def keep_note_to_local (kn : KeepNote) (existing : Option Note) (now : Nat)
    (c : Nat) : Note × Nat :=
  let (note_id, c1) :=
    match existing with
    | some e => (e.id, c)
    | none => (uuidOf c, c + 1)
  let (ntype, citems, content, c2) :=
    if kn.items.isEmpty then
      (NoteType.note, ([] : List ChecklistItem), kn.text, c1)
    else
      let (l, c') := fresh_items c1 kn.items
      (NoteType.checklist, l, "", c')
  (Note.update_hash
    { id := note_id
      title := kn.title
      content := content
      note_type := ntype
      checklist_items := citems
      labels := kn.labels
      pinned := kn.pinned
      archived := kn.archived
      trashed := kn.trashed
      color := kn.color
      keep_id := some kn.id
      sync_status := SyncStatus.local_only
      local_modified := none
      remote_modified := some kn.updated
      content_hash := ""
      created_at := (match existing with
        | some e => e.created_at
        | none => kn.created.getD now)
      updated_at := now }, c2)

/-- `SELECT * FROM notes WHERE keep_id = ?` followed by `fetchone()`. -/
def find_by_keep_id (db : Db) (kid : String) : Option Note :=
  db.notes.find? (fun n => n.keep_id == some kid)

/-- The pull stats dict `{"new": 0, "updated": 0, "skipped": 0}`. -/
structure PullStats where
  new : Nat
  updated : Nat
  skipped : Nat
deriving DecidableEq

/-- The `for keep_note in self.keep.all()` loop of
`KeepSyncEngine._pull_from_keep`, with the running stats, database and uuid
counter threaded through. -/
def pull_loop (now : Nat) : List KeepNote → PullStats → Db → Nat →
    PullStats × Db × Nat
  | [], s, db, c => (s, db, c)
  | kn :: rest, s, db, c =>
    match find_by_keep_id db kn.id with
    | some local_note =>
      if local_note.remote_modified.getD 0 < kn.updated then
        let (n0, c') := keep_note_to_local kn (some local_note) now c
        let n := { n0 with sync_status := SyncStatus.synced }
        let (_, db') := save_note now n db
        pull_loop now rest { s with updated := s.updated + 1 } db' c'
      else
        pull_loop now rest { s with skipped := s.skipped + 1 } db c
    | none =>
      let (n0, c') := keep_note_to_local kn none now c
      let n := { n0 with sync_status := SyncStatus.synced }
      let (_, db') := save_note now n db
      pull_loop now rest { s with new := s.new + 1 } db' c'

/-- `KeepSyncEngine._pull_from_keep`.  The comparison
`keep_note.timestamps.updated > (local_note.remote_modified or datetime.min)`
appears as `remote_modified.getD 0 < kn.updated` (strict, `datetime.min = 0`). -/
def pull_from_keep (now : Nat) (remote : List KeepNote) (db : Db) (c : Nat) :
    PullStats × Db × Nat :=
  pull_loop now remote ⟨0, 0, 0⟩ db c

/-- The push stats dict `{"created": 0, "updated": 0, "deleted": 0, "errors": 0}`. -/
structure PushStats where
  created : Nat
  updated : Nat
  deleted : Nat
  errors : Nat
deriving DecidableEq

/-- The row filter of the push query:
`sync_status IN (pending_push, local_only) AND trashed = 0`. -/
def push_pred (n : Note) : Bool :=
  (n.sync_status == SyncStatus.pending_push ||
    n.sync_status == SyncStatus.local_only) && !n.trashed

/-- The `fetchall()` snapshot the push loop iterates over. -/
def push_select (db : Db) : List Note := db.notes.filter push_pred

/-- `KeepSyncEngine._update_keep_note`: writes title, text (empty for a
checklist — the source's simplification), pinned and archived onto the remote
note.  Modelled from the spec: the Keep server stamps the remote
`timestamps.updated` when the change is committed; modelled as the push time. -/
def update_keep_note (kn : KeepNote) (local_note : Note) (now : Nat) : KeepNote :=
  { kn with
      title := local_note.title
      text := if local_note.note_type == NoteType.checklist then "" else local_note.content
      pinned := local_note.pinned
      archived := local_note.archived
      updated := now }

/-- `KeepSyncEngine._create_keep_note`: `createList`/`createNote` plus flags
and labels.  The server-assigned remote id and `timestamps` are modelled from
the spec as a fresh id and the push time. -/
def create_keep_note (local_note : Note) (now : Nat) (c : Nat) : KeepNote × Nat :=
  ({ id := uuidOf c
     title := local_note.title
     text := if local_note.note_type == NoteType.checklist then "" else local_note.content
     items := if local_note.note_type == NoteType.checklist then
         local_note.checklist_items.map (fun i => (i.text, i.checked))
       else []
     labels := local_note.labels
     pinned := local_note.pinned
     archived := local_note.archived
     trashed := false
     color := ""
     updated := now
     created := some now }, c + 1)

/-- The `for row in cursor.fetchall()` loop of `KeepSyncEngine._push_to_keep`.
`failing` is the set of local note ids whose provider call
(`keep.get` / `_create_keep_note` / `_update_keep_note`) raises; the
surrounding `try/except` catches it, logs, bumps the local `errors` counter
and continues — exactly the source's per-note error handling. -/
def push_loop (failing : List String) (now : Nat) : List Note → PushStats →
    Db → List KeepNote → Nat → PushStats × Db × List KeepNote × Nat
  | [], s, db, rem, c => (s, db, rem, c)
  | n :: rest, s, db, rem, c =>
    if failing.contains n.id then
      push_loop failing now rest { s with errors := s.errors + 1 }
        (log_sync now "push" n.id "error" "provider error" db) rem c
    else
      match n.keep_id with
      | some kid =>
        match rem_get rem kid with
        | some _ =>
          let rem' := rem.map (fun m =>
            if m.id == kid then update_keep_note m n now else m)
          let n' := { n with
            sync_status := SyncStatus.synced, remote_modified := some now }
          let (_, db') := save_note now n' db
          push_loop failing now rest { s with updated := s.updated + 1 } db' rem' c
        | none =>
          let n' := { n with
            sync_status := SyncStatus.synced, remote_modified := some now }
          let (_, db') := save_note now n' db
          push_loop failing now rest s db' rem c
      | none =>
        let (kn, c') := create_keep_note n now c
        let n' := { n with
          keep_id := some kn.id
          sync_status := SyncStatus.synced
          remote_modified := some now }
        let (_, db') := save_note now n' db
        push_loop failing now rest { s with created := s.created + 1 } db'
          (rem ++ [kn]) c'

/-- `KeepSyncEngine._push_to_keep`. -/
def push_to_keep (failing : List String) (now : Nat) (db : Db)
    (rem : List KeepNote) (c : Nat) : PushStats × Db × List KeepNote × Nat :=
  push_loop failing now (push_select db) ⟨0, 0, 0, 0⟩ db rem c

/-- The record a successful push step writes for a selected note: status
`synced`, `remote_modified := now`, the (possibly newly stored) remote id,
and the `updated_at`/hash stamping of `save_note`. -/
def pushed_note (now : Nat) (n : Note) (kid : Option String) : Note :=
  Note.update_hash { n with
    keep_id := kid
    sync_status := SyncStatus.synced
    remote_modified := some now
    updated_at := now }

/-- The cycle stats dict
`{"pulled": 0, "pushed": 0, "conflicts": 0, "errors": 0}`. -/
structure SyncStats where
  pulled : Nat
  pushed : Nat
  conflicts : Nat
  errors : Nat
deriving DecidableEq

/-- The `(success, message, stats)` triple returned by `KeepSyncEngine.sync`;
`stats = none` models the empty dict `{}` of the guard returns. -/
structure SyncResult where
  success : Bool
  message : String
  stats : Option SyncStats
deriving DecidableEq

/-- The mutable state of `KeepSyncEngine`, together with the Keep server's
note store (`remote`) and the uuid counter. -/
structure EngineState where
  db : Db
  is_authenticated : Bool
  sync_in_progress : Bool
  last_sync : Option Nat
  remote : List KeepNote
  ctr : Nat
deriving DecidableEq

/-- `KeepSyncEngine.sync`.  `cycle_raises` models an exception escaping the
phases between the guard and the finalization (placed at the initial
`self.keep.sync()` refresh); the source's `try/except/finally` converts it
into an error result, a sync-log entry, `stats["errors"] += 1`, and still
releases `sync_in_progress`.  In the success path the returned stats are
`pulled = new + updated`, `pushed = created + updated`, and — exactly as in
the source — `conflicts` and `errors` are never incremented (the push phase's
internal error counter is not propagated). -/
def sync (st : EngineState) (failing : List String) (cycle_raises : Bool)
    (now : Nat) : SyncResult × EngineState :=
  if !st.is_authenticated then
    ({ success := false, message := "Not authenticated with Google Keep",
       stats := none }, st)
  else if st.sync_in_progress then
    ({ success := false, message := "Sync already in progress", stats := none }, st)
  else
    if cycle_raises then
      let db' := log_sync now "sync" "" "error" "cycle exception" st.db
      ({ success := false, message := "Sync error",
         stats := some ⟨0, 0, 0, 1⟩ },
       { st with db := db', sync_in_progress := false })
    else
      let (ps, db1, c1) := pull_from_keep now st.remote st.db st.ctr
      let (qs, db2, rem2, c2) := push_loop failing now (push_select db1)
        ⟨0, 0, 0, 0⟩ db1 st.remote c1
      let db3 := set_setting "last_sync" (toString now) db2
      ({ success := true, message := "Sync completed successfully",
         stats := some ⟨ps.new + ps.updated, qs.created + qs.updated, 0, 0⟩ },
       { st with
         db := db3
         remote := rem2
         ctr := c2
         last_sync := some now
         sync_in_progress := false })

/-! ## Store well-formedness invariants (SQLite primary key, unique links,
fresh uuid supply) -/

/-- The `id` column is the primary key of the `notes` table. -/
def ids_nodup (db : Db) : Prop := (db.notes.map Note.id).Nodup

/-- At most one local note links any given remote id. -/
def links_nodup (db : Db) : Prop := (db.notes.filterMap Note.keep_id).Nodup

/-- No id the uuid supply can still produce is taken by a local note. -/
def db_fresh (db : Db) (c : Nat) : Prop :=
  ∀ k, c ≤ k → ∀ n ∈ db.notes, n.id ≠ uuidOf k ∧ n.keep_id ≠ some (uuidOf k)

/-- No id the uuid supply can still produce is taken by a remote note. -/
def rem_fresh (rem : List KeepNote) (c : Nat) : Prop :=
  ∀ k, c ≤ k → ∀ kn ∈ rem, kn.id ≠ uuidOf k

/-! ## Concrete inputs used by witnesses, failing inputs and counterexamples -/

/-- A linked note edited locally after the last known remote state
(`local_modified = 20 > remote_modified = 10`, status `pending_push`). -/
def c1_note : Note :=
  { id := "A1", title := "local title", content := "local body",
    note_type := NoteType.note, checklist_items := [], labels := [],
    pinned := false, archived := false, trashed := false, color := "",
    keep_id := some "K1", sync_status := SyncStatus.pending_push,
    local_modified := some 20, remote_modified := some 10,
    content_hash := "", created_at := 1, updated_at := 20 }

def c1_db : Db := { notes := [c1_note], labels := [], settings := [], sync_log := [] }

/-- The independently updated remote counterpart (`updated = 30 > 10`). -/
def c1_kn : KeepNote :=
  { id := "K1", title := "remote title", text := "remote body", items := [],
    labels := [], pinned := false, archived := false, trashed := false,
    color := "", updated := 30, created := some 1 }

/-- A note previously `synced` whose remote id is absent from the fetched
snapshot. -/
def c2_note : Note :=
  { id := "A2", title := "kept", content := "kept body",
    note_type := NoteType.note, checklist_items := [], labels := [],
    pinned := false, archived := false, trashed := false, color := "",
    keep_id := some "K2", sync_status := SyncStatus.synced,
    local_modified := none, remote_modified := some 10,
    content_hash := "kept|kept body|[]|False|False", created_at := 1,
    updated_at := 10 }

def c2_st : EngineState :=
  { db := { notes := [c2_note], labels := [], settings := [], sync_log := [] },
    is_authenticated := true, sync_in_progress := false,
    last_sync := none, remote := [], ctr := 0 }

/-- A pending note for the idempotence witness. -/
def c3_note : Note :=
  { id := "A3", title := "t", content := "b",
    note_type := NoteType.note, checklist_items := [], labels := [],
    pinned := false, archived := false, trashed := false, color := "",
    keep_id := none, sync_status := SyncStatus.local_only,
    local_modified := some 2, remote_modified := none,
    content_hash := "", created_at := 1, updated_at := 2 }

def c3_st : EngineState :=
  { db := { notes := [c3_note], labels := [], settings := [], sync_log := [] },
    is_authenticated := true, sync_in_progress := false,
    last_sync := none, remote := [], ctr := 0 }

/-- A selected note whose remote id resolves to no remote note. -/
def c4_note : Note :=
  { id := "A4", title := "t4", content := "b4",
    note_type := NoteType.note, checklist_items := [], labels := [],
    pinned := false, archived := false, trashed := false, color := "",
    keep_id := some "K4", sync_status := SyncStatus.pending_push,
    local_modified := some 3, remote_modified := some 2,
    content_hash := "", created_at := 1, updated_at := 3 }

def c4_db : Db := { notes := [c4_note], labels := [], settings := [], sync_log := [] }

/-- C4 witness inputs: one linked pending note, one unsynced note without a
remote id, one already-synced note, and a remote store holding the linked
note's counterpart. -/
def c4w_sel : Note :=
  { id := "P1", title := "w1", content := "wb1",
    note_type := NoteType.note, checklist_items := [], labels := [],
    pinned := false, archived := false, trashed := false, color := "",
    keep_id := some "RK", sync_status := SyncStatus.pending_push,
    local_modified := some 3, remote_modified := some 2,
    content_hash := "", created_at := 1, updated_at := 3 }

def c4w_new : Note :=
  { id := "P2", title := "w2", content := "wb2",
    note_type := NoteType.note, checklist_items := [], labels := [],
    pinned := false, archived := false, trashed := false, color := "",
    keep_id := none, sync_status := SyncStatus.local_only,
    local_modified := some 3, remote_modified := none,
    content_hash := "", created_at := 1, updated_at := 3 }

def c4w_skip : Note :=
  { id := "P3", title := "w3", content := "wb3",
    note_type := NoteType.note, checklist_items := [], labels := [],
    pinned := false, archived := false, trashed := false, color := "",
    keep_id := none, sync_status := SyncStatus.synced,
    local_modified := none, remote_modified := some 2,
    content_hash := "", created_at := 1, updated_at := 2 }

def c4w_db : Db :=
  { notes := [c4w_sel, c4w_new, c4w_skip], labels := [], settings := [],
    sync_log := [] }

def c4w_kn : KeepNote :=
  { id := "RK", title := "rt", text := "rb", items := [],
    labels := [], pinned := false, archived := false, trashed := false,
    color := "", updated := 2, created := some 1 }

/-- A note whose provider call raises during push. -/
def c5_note : Note :=
  { id := "A5", title := "t5", content := "b5",
    note_type := NoteType.note, checklist_items := [], labels := [],
    pinned := false, archived := false, trashed := false, color := "",
    keep_id := none, sync_status := SyncStatus.local_only,
    local_modified := some 2, remote_modified := none,
    content_hash := "", created_at := 1, updated_at := 2 }

def c5_db : Db := { notes := [c5_note], labels := [], settings := [], sync_log := [] }

def c5_st : EngineState :=
  { db := c5_db, is_authenticated := true, sync_in_progress := false,
    last_sync := none, remote := [], ctr := 0 }

/-- C5 witness inputs: a cycle with one failing and one succeeding push. -/
def c5w_fail : Note :=
  { id := "F5", title := "f", content := "fb",
    note_type := NoteType.note, checklist_items := [], labels := [],
    pinned := false, archived := false, trashed := false, color := "",
    keep_id := none, sync_status := SyncStatus.pending_push,
    local_modified := some 2, remote_modified := none,
    content_hash := "", created_at := 1, updated_at := 2 }

def c5w_ok : Note :=
  { id := "G5", title := "g", content := "gb",
    note_type := NoteType.note, checklist_items := [], labels := [],
    pinned := false, archived := false, trashed := false, color := "",
    keep_id := none, sync_status := SyncStatus.local_only,
    local_modified := some 2, remote_modified := none,
    content_hash := "", created_at := 1, updated_at := 2 }

def c5w_db0 : Db :=
  { notes := [c5w_fail, c5w_ok], labels := [], settings := [], sync_log := [] }

def c5w_st : EngineState :=
  { db := c5w_db0, is_authenticated := true, sync_in_progress := false,
    last_sync := none, remote := [], ctr := 0 }

/-- Engine states exercising the three guard/release cases of `sync`. -/
def c6_st_unauth : EngineState :=
  { db := { notes := [], labels := [], settings := [], sync_log := [] },
    is_authenticated := false, sync_in_progress := false,
    last_sync := none, remote := [], ctr := 0 }

def c6_st_busy : EngineState :=
  { db := { notes := [], labels := [], settings := [], sync_log := [] },
    is_authenticated := true, sync_in_progress := true,
    last_sync := none, remote := [], ctr := 0 }

def c6_st_ok : EngineState :=
  { db := { notes := [], labels := [], settings := [], sync_log := [] },
    is_authenticated := true, sync_in_progress := false,
    last_sync := none, remote := [], ctr := 0 }

/-- A linked note and a remote note with equal timestamps. -/
def c7_note : Note :=
  { id := "A7", title := "t7", content := "b7",
    note_type := NoteType.note, checklist_items := [], labels := [],
    pinned := false, archived := false, trashed := false, color := "",
    keep_id := some "K7", sync_status := SyncStatus.synced,
    local_modified := none, remote_modified := some 42,
    content_hash := "", created_at := 1, updated_at := 5 }

def c7_db : Db := { notes := [c7_note], labels := [], settings := [], sync_log := [] }

def c7_kn : KeepNote :=
  { id := "K7", title := "t7r", text := "b7r", items := [],
    labels := [], pinned := false, archived := false, trashed := false,
    color := "", updated := 42, created := some 1 }

/-- Two notes agreeing on the hashed fields but differing elsewhere. -/
def c8_note : Note :=
  { id := "A8", title := "t8", content := "b8",
    note_type := NoteType.note,
    checklist_items := [⟨"item", true, "I8"⟩], labels := ["work"],
    pinned := true, archived := false, trashed := false, color := "red",
    keep_id := none, sync_status := SyncStatus.local_only,
    local_modified := some 2, remote_modified := none,
    content_hash := "", created_at := 1, updated_at := 2 }

def c8_note' : Note :=
  { c8_note with
    id := "B8"
    labels := ["home"]
    color := "blue"
    trashed := true
    sync_status := SyncStatus.error
    created_at := 9 }

def c8_db : Db := { notes := [], labels := [], settings := [], sync_log := [] }

/-- A small store for the export/import round-trip witness. -/
def c9_note : Note :=
  { id := "A9", title := "t9", content := "b9",
    note_type := NoteType.note, checklist_items := [], labels := ["l1", "l2"],
    pinned := true, archived := false, trashed := false, color := "",
    keep_id := some "K9", sync_status := SyncStatus.synced,
    local_modified := none, remote_modified := some 4,
    content_hash := "", created_at := 1, updated_at := 4 }

def c9_note' : Note :=
  { id := "B9", title := "t9b", content := "b9b",
    note_type := NoteType.note, checklist_items := [], labels := [],
    pinned := false, archived := true, trashed := true, color := "",
    keep_id := none, sync_status := SyncStatus.local_only,
    local_modified := some 3, remote_modified := none,
    content_hash := "", created_at := 2, updated_at := 3 }

def c9_db : Db :=
  { notes := [c9_note, c9_note'], labels := [⟨"L", "l1", "", none⟩],
    settings := [], sync_log := [] }

/-- The fresh store the round-trip witness imports into. -/
def c9_target : Db := { notes := [], labels := [], settings := [], sync_log := [] }

def c10_db : Db := { notes := [c7_note], labels := [], settings := [], sync_log := [] }

/-! ## Helper lemmas about the store primitives -/

theorem find?_cons_eqn {α : Type} (p : α → Bool) (a : α) (l : List α) :
    List.find? p (a :: l) = if p a = true then some a else List.find? p l := by
  by_cases h : p a = true
  · rw [if_pos h]
    exact List.find?_cons_of_pos l h
  · rw [if_neg h]
    exact List.find?_cons_of_neg l h

theorem find?_map_replace_self (n : Note) (l : List Note)
    (h : l.any (fun m => m.id == n.id) = true) :
    (l.map (fun m => if m.id == n.id then n else m)).find?
      (fun m => m.id == n.id) = some n := by
  induction l with
  | nil => simp at h
  | cons m t ih =>
    rw [List.any_cons] at h
    by_cases hm : (m.id == n.id) = true
    · simp only [List.map_cons, if_pos hm, find?_cons_eqn, beq_self_eq_true,
        if_pos]
    · have h2 : t.any (fun m => m.id == n.id) = true := by
        rcases Bool.or_eq_true_iff.mp h with h1 | h2
        · exact absurd h1 hm
        · exact h2
      simp only [List.map_cons, if_neg hm, find?_cons_eqn]
      exact ih h2

theorem find?_upsert_self (n : Note) (l : List Note) :
    (upsert_note n l).find? (fun m => m.id == n.id) = some n := by
  unfold upsert_note
  by_cases h : l.any (fun m => m.id == n.id) = true
  · rw [if_pos h]
    exact find?_map_replace_self n l h
  · rw [if_neg h, List.find?_append]
    have hnone : l.find? (fun m => m.id == n.id) = none := by
      rw [List.find?_eq_none]
      intro m hm hb
      exact h (List.any_eq_true.mpr ⟨m, hm, hb⟩)
    rw [hnone]
    simp [List.find?_cons_of_pos _ (beq_self_eq_true n.id)]

theorem find?_map_replace_other (n : Note) (l : List Note) (i : String)
    (h : i ≠ n.id) :
    (l.map (fun m => if m.id == n.id then n else m)).find?
      (fun m => m.id == i) = l.find? (fun m => m.id == i) := by
  induction l with
  | nil => rfl
  | cons m t ih =>
    by_cases hm : (m.id == n.id) = true
    · have hmn : m.id = n.id := by simpa using hm
      have hmi : ¬((m.id == i) = true) := by
        simp only [beq_iff_eq, hmn]
        exact fun hc => h hc.symm
      have hni : ¬((n.id == i) = true) := by
        simp only [beq_iff_eq]
        exact fun hc => h hc.symm
      simp only [List.map_cons, if_pos hm, find?_cons_eqn]
      rw [if_neg hni, if_neg hmi]
      exact ih
    · by_cases hmi : (m.id == i) = true
      · simp only [List.map_cons, if_neg hm, find?_cons_eqn]
        rw [if_pos hmi, if_pos hmi]
      · simp only [List.map_cons, if_neg hm, find?_cons_eqn]
        rw [if_neg hmi, if_neg hmi]
        exact ih

theorem find?_upsert_other (n : Note) (l : List Note) (i : String)
    (h : i ≠ n.id) :
    (upsert_note n l).find? (fun m => m.id == i) =
      l.find? (fun m => m.id == i) := by
  unfold upsert_note
  by_cases hany : l.any (fun m => m.id == n.id) = true
  · rw [if_pos hany]
    exact find?_map_replace_other n l i h
  · rw [if_neg hany, List.find?_append]
    have hni : l.find? (fun m => m.id == i) = (l.find? (fun m => m.id == i)).or none := by
      cases l.find? (fun m => m.id == i) <;> rfl
    have hnone : [n].find? (fun m => m.id == i) = none := by
      rw [List.find?_eq_none]
      intro x hx
      simp only [List.mem_singleton] at hx
      subst hx
      simp only [beq_iff_eq]
      exact fun hc => h hc.symm
    rw [hnone, ← hni]

theorem db_get_save_note (now : Nat) (n : Note) (db : Db) :
    db_get (save_note now n db).2 n.id =
      some (Note.update_hash { n with updated_at := now }) :=
  find?_upsert_self (Note.update_hash { n with updated_at := now }) db.notes

theorem db_get_save_note_other (now : Nat) (n : Note) (db : Db) (i : String)
    (h : i ≠ n.id) :
    db_get (save_note now n db).2 i = db_get db i :=
  find?_upsert_other (Note.update_hash { n with updated_at := now }) db.notes i h

/-! ## Claim theorems -/

/-- C1 (failing input): a linked local note whose `local_modified` (20) is
newer than its `remote_modified` (10), facing a remote update with
`updated = 30 > 10`.  The specification says the pull must set status
`conflict` and leave the local title/body unchanged; `_pull_from_keep` has no
conflict branch — it overwrites the local content from the remote and marks
the note `synced`, discarding the local edits. -/
theorem pull_overwrites_divergent_local_edits :
    (pull_from_keep 40 [c1_kn] c1_db 0).1 = ⟨0, 1, 0⟩ ∧
    ((db_get (pull_from_keep 40 [c1_kn] c1_db 0).2.1 "A1").map Note.sync_status =
      some SyncStatus.synced) ∧
    ((db_get (pull_from_keep 40 [c1_kn] c1_db 0).2.1 "A1").map Note.title =
      some "remote title") ∧
    ((db_get (pull_from_keep 40 [c1_kn] c1_db 0).2.1 "A1").map Note.content =
      some "remote body") := by
  decide

/-- C2 (failing input): a note previously `synced` whose remote id `"K2"` is
absent from the fetched snapshot (here empty).  The specification says the
cycle must transition it to `deleted_remote`; the engine never assigns
`DELETED_REMOTE` anywhere — the full cycle leaves the record byte-for-byte
unchanged, still `synced`. -/
theorem sync_keeps_synced_note_after_remote_vanishes :
    db_get (sync c2_st [] false 50).2.db "A2" = some c2_note ∧
    c2_note.sync_status = SyncStatus.synced ∧
    c2_note.sync_status ≠ SyncStatus.deleted_remote := by
  decide

/-- C6: the guard of `sync` — a call while not authenticated, or while a
cycle is in progress, returns a failed result with empty stats and leaves the
whole engine state (notes included) unchanged; and every call entered with
the in-progress flag clear ends with the flag clear again, whether the cycle
completes or an exception escapes the pull/push phases. -/
theorem sync_guard_and_flag_release (st : EngineState) (failing : List String)
    (r : Bool) (now : Nat) :
    (st.is_authenticated = false →
      sync st failing r now =
        ({ success := false, message := "Not authenticated with Google Keep",
           stats := none }, st)) ∧
    (st.is_authenticated = true → st.sync_in_progress = true →
      sync st failing r now =
        ({ success := false, message := "Sync already in progress",
           stats := none }, st)) ∧
    (st.sync_in_progress = false →
      ((sync st failing r now).2).sync_in_progress = false) := by
  refine ⟨fun h => by simp [sync, h], fun h1 h2 => by simp [sync, h1, h2], fun h => ?_⟩
  by_cases ha : st.is_authenticated
  · by_cases hr : r <;> simp [sync, ha, h, hr]
  · simp [sync, ha, h]

/-- C6 witness: the three cases of the guard/release theorem at concrete
engine states. -/
theorem sync_guard_and_flag_release_witness :
    (sync c6_st_unauth [] false 1 =
      ({ success := false, message := "Not authenticated with Google Keep",
         stats := none }, c6_st_unauth)) ∧
    (sync c6_st_busy [] false 1 =
      ({ success := false, message := "Sync already in progress",
         stats := none }, c6_st_busy)) ∧
    ((sync c6_st_ok [] true 1).2.sync_in_progress = false) :=
  ⟨(sync_guard_and_flag_release c6_st_unauth [] false 1).1 rfl,
   (sync_guard_and_flag_release c6_st_busy [] false 1).2.1 rfl rfl,
   (sync_guard_and_flag_release c6_st_ok [] true 1).2.2 rfl⟩

/-- C7: when the fetched remote note's `updated` equals the linked local
note's `remote_modified`, the pull counts the note as skipped and leaves the
database — in particular the local record — entirely unchanged. -/
theorem pull_equal_timestamps_skip (kn : KeepNote) (db : Db) (now c t : Nat)
    (n : Note) (hfind : find_by_keep_id db kn.id = some n)
    (hrm : n.remote_modified = some t) (hup : kn.updated = t) :
    pull_from_keep now [kn] db c = (⟨0, 0, 1⟩, db, c) := by
  simp [pull_from_keep, pull_loop, hfind, hrm, hup]

/-- C7 witness: equal timestamps (42) on a concrete linked note. -/
theorem pull_equal_timestamps_skip_witness :
    pull_from_keep 9 [c7_kn] c7_db 3 = (⟨0, 0, 1⟩, c7_db, 3) :=
  pull_equal_timestamps_skip c7_kn c7_db 9 3 42 c7_note (by decide) (by decide)
    (by decide)

/-- C8: the content hash is a deterministic function of exactly
(title, body, checklist snapshot, pinned, archived) — two notes agreeing on
those fields hash identically, whatever their other fields — and `save_note`
recomputes the hash and the updated-at stamp before writing, so the stored
record's hash equals the hash of its stored fields. -/
theorem save_note_hash_invariant (n1 n2 : Note) (db : Db) (now : Nat)
    (ht : n1.title = n2.title) (hc : n1.content = n2.content)
    (hi : n1.checklist_items = n2.checklist_items)
    (hp : n1.pinned = n2.pinned) (ha : n1.archived = n2.archived) :
    (Note.update_hash n1).content_hash = (Note.update_hash n2).content_hash ∧
    ∃ rec, db_get (save_note now n1 db).2 n1.id = some rec ∧
      rec.content_hash = md5_hexdigest rec.hash_content ∧
      rec.updated_at = now := by
  refine ⟨?_, Note.update_hash { n1 with updated_at := now },
    db_get_save_note now n1 db, rfl, rfl⟩
  simp [Note.update_hash, Note.hash_content, ht, hc, hi, hp, ha]

/-- C8 witness: two concrete notes agreeing on the hashed fields but
differing in id, labels, color, trash flag, status and creation time. -/
theorem save_note_hash_invariant_witness :
    (Note.update_hash c8_note).content_hash =
      (Note.update_hash c8_note').content_hash ∧
    ∃ rec, db_get (save_note 11 c8_note c8_db).2 c8_note.id = some rec ∧
      rec.content_hash = md5_hexdigest rec.hash_content ∧
      rec.updated_at = 11 :=
  save_note_hash_invariant c8_note c8_note' c8_db 11 rfl rfl rfl rfl rfl

theorem map_if_id_self (note_id : String) (f : Note → Note) (l : List Note)
    (h : ∀ n ∈ l, n.id ≠ note_id) :
    l.map (fun n => if n.id == note_id then f n else n) = l := by
  induction l with
  | nil => rfl
  | cons m t ih =>
    rw [List.map_cons]
    have hm : ¬((m.id == note_id) = true) := by
      simp only [beq_iff_eq]
      exact h m (List.mem_cons_self m t)
    rw [if_neg hm, ih (fun n hn => h n (List.mem_cons_of_mem m hn))]

/-- C10: `delete_note` (soft or permanent) and `restore_note` on an id that
identifies no note both report success and leave the store unchanged. -/
theorem delete_restore_missing_id_noop (db : Db) (note_id : String)
    (now : Nat) (perm : Bool) (h : ∀ n ∈ db.notes, n.id ≠ note_id) :
    delete_note now note_id perm db = (true, db) ∧
    restore_note now note_id db = (true, db) := by
  constructor
  · unfold delete_note
    by_cases hp : perm = true
    · rw [if_pos hp]
      have hf : db.notes.filter (fun n => !(n.id == note_id)) = db.notes := by
        rw [List.filter_eq_self]
        intro a ha
        simp [h a ha]
      rw [hf]
    · rw [if_neg hp, map_if_id_self note_id _ db.notes h]
  · unfold restore_note
    rw [map_if_id_self note_id _ db.notes h]

/-- C4 counterexample: a selected note (`pending_push`, not trashed) carrying
remote id `"K4"` while the remote store is empty.  The claim says the push
updates the remote note for every selected note with a remote id; the code's
`keep.get` returns nothing, no remote update happens (the remote store stays
empty and the `updated` counter stays 0), yet the note is still marked
`synced` with `remoteModified = now`. -/
theorem push_missing_remote_id_marks_synced_without_update :
    (push_to_keep [] 5 c4_db [] 0).2.2.1 = [] ∧
    (push_to_keep [] 5 c4_db [] 0).1 = ⟨0, 0, 0, 0⟩ ∧
    ((db_get (push_to_keep [] 5 c4_db [] 0).2.1 "A4").map Note.sync_status =
      some SyncStatus.synced) ∧
    ((db_get (push_to_keep [] 5 c4_db [] 0).2.1 "A4").map Note.remote_modified =
      some (some 5)) := by
  decide

/-- C5 counterexample: a cycle in which the only selected note's provider
call raises.  The push phase's internal `errors` counter records the failure
(`= 1`) and a sync-log entry is appended, but the stats dict returned by
`sync` reports `errors = 0` — the per-note push failure is not counted in the
cycle's errors count, contrary to the claim. -/
theorem push_error_not_in_cycle_stats :
    (sync c5_st ["A5"] false 7).1.stats = some ⟨0, 0, 0, 0⟩ ∧
    (push_to_keep ["A5"] 7 c5_db [] 0).1.errors = 1 ∧
    (sync c5_st ["A5"] false 7).2.db.sync_log =
      [⟨7, "push", "A5", "error", "provider error"⟩] ∧
    db_get (sync c5_st ["A5"] false 7).2.db "A5" = some c5_note := by
  decide

/-- C10 witness: a store with one note, probed with an id it does not contain. -/
theorem delete_restore_missing_id_noop_witness :
    delete_note 3 "missing" true c10_db = (true, c10_db) ∧
    restore_note 3 "missing" c10_db = (true, c10_db) :=
  ⟨(delete_restore_missing_id_noop c10_db "missing" 3 true (by decide)).1,
   (delete_restore_missing_id_noop c10_db "missing" 3 false (by decide)).2⟩

/-! ## Round trip: export then import -/

theorem uuidOf_inj {k k' : Nat} (h : uuidOf k = uuidOf k') : k = k' := by
  have hd := congrArg String.data h
  have hl := congrArg List.length hd
  simp only [uuidOf, List.length_replicate] at hl
  omega

theorem ne_uuidOf {s : String} {c : Char} (hc : c ∈ s.data) (hcu : c ≠ 'u')
    (k : Nat) : s ≠ uuidOf k := by
  intro h
  exact hcu (List.eq_of_mem_replicate (h ▸ hc))

theorem upsert_eq_append (n : Note) (l : List Note)
    (h : ∀ m ∈ l, m.id ≠ n.id) : upsert_note n l = l ++ [n] := by
  unfold upsert_note
  rw [if_neg]
  intro hany
  rcases List.any_eq_true.mp hany with ⟨m, hm, hb⟩
  exact h m hm (by simpa using hb)

theorem import_loop_cons (now : Nat) (d : Note) (rest : List Note)
    (imported : Nat) (db : Db) (c : Nat) :
    import_loop now (d :: rest) imported db c =
      import_loop now rest (imported + 1)
        { db with notes := upsert_note (Note.update_hash
            { note_from_dict d with
              id := uuidOf c
              keep_id := none
              sync_status := SyncStatus.local_only
              updated_at := now }) db.notes }
        (c + 1) := rfl

theorem import_loop_spec (now : Nat) (ds : List Note) :
    ∀ (imported : Nat) (db : Db) (c : Nat),
    (∀ n ∈ db.notes, ∀ k, c ≤ k → n.id ≠ uuidOf k) →
    (import_loop now ds imported db c).1 = imported + ds.length ∧
    (import_loop now ds imported db c).2.1.notes.map note_content_key =
      db.notes.map note_content_key ++ ds.map note_content_key ∧
    (import_loop now ds imported db c).2.2 = c + ds.length ∧
    (∀ n ∈ (import_loop now ds imported db c).2.1.notes, ∀ k,
      c + ds.length ≤ k → n.id ≠ uuidOf k) := by
  induction ds with
  | nil =>
    intro imported db c hfresh
    exact ⟨rfl, by simp [import_loop], rfl,
      fun n hn k hk => hfresh n hn k (by omega)⟩
  | cons d rest ih =>
    intro imported db c hfresh
    rw [import_loop_cons]
    have happ : upsert_note (Note.update_hash
        { note_from_dict d with
          id := uuidOf c
          keep_id := none
          sync_status := SyncStatus.local_only
          updated_at := now }) db.notes =
        db.notes ++ [Note.update_hash
        { note_from_dict d with
          id := uuidOf c
          keep_id := none
          sync_status := SyncStatus.local_only
          updated_at := now }] :=
      upsert_eq_append _ db.notes (fun m hm => hfresh m hm c (Nat.le_refl c))
    rw [happ]
    have hfresh' : ∀ n ∈ db.notes ++ [Note.update_hash
        { note_from_dict d with
          id := uuidOf c
          keep_id := none
          sync_status := SyncStatus.local_only
          updated_at := now }], ∀ k, c + 1 ≤ k → n.id ≠ uuidOf k := by
      intro n hn k hk
      rcases List.mem_append.mp hn with h1 | h2
      · exact hfresh n h1 k (by omega)
      · simp only [List.mem_singleton] at h2
        subst h2
        show uuidOf c ≠ uuidOf k
        intro hc
        have := uuidOf_inj hc
        omega
    obtain ⟨hcount, hkeys, hctr, hfr⟩ := ih (imported + 1)
      { db with notes := db.notes ++ [Note.update_hash
        { note_from_dict d with
          id := uuidOf c
          keep_id := none
          sync_status := SyncStatus.local_only
          updated_at := now }] } (c + 1) hfresh'
    refine ⟨?_, ?_, ?_, ?_⟩
    · rw [hcount, List.length_cons]
      omega
    · rw [hkeys]
      have hkey : note_content_key (Note.update_hash
          { note_from_dict d with
            id := uuidOf c
            keep_id := none
            sync_status := SyncStatus.local_only
            updated_at := now }) = note_content_key d := rfl
      simp [hkey]
    · rw [hctr, List.length_cons]
      omega
    · intro n hn k hk
      rw [List.length_cons] at hk
      exact hfr n hn k (by omega)

/-- C9: the document produced by `export_notes` lists every note of the store
(trashed and archived included), and importing that document into a store
whose existing ids lie outside the uuid supply appends exactly one note per
exported record, each carrying the exported title, body and labels (ids are
regenerated, remote links cleared) — export followed by import reproduces the
note contents up to id renaming. -/
theorem export_import_round_trip (db target : Db) (now now' c : Nat)
    (hfresh : ∀ n ∈ target.notes, ∀ k, n.id ≠ uuidOf k) :
    (export_notes now db).notes = get_all_notes db true true ∧
    (import_notes (export_notes now db) now' target c).1 =
      (export_notes now db).notes.length ∧
    (import_notes (export_notes now db) now' target c).2.1.notes.map
        note_content_key =
      target.notes.map note_content_key ++
        (export_notes now db).notes.map note_content_key := by
  obtain ⟨h1, h2, _, _⟩ := import_loop_spec now' (export_notes now db).notes 0
    target c (fun n hn k _ => hfresh n hn k)
  refine ⟨rfl, ?_, ?_⟩
  · show (import_loop now' (export_notes now db).notes 0 target c).1 = _
    rw [h1]
    omega
  · show (import_loop now' (export_notes now db).notes 0 target c).2.1.notes.map
        note_content_key = _
    exact h2

/-! ## Push phase machinery -/

theorem db_get_log_sync (now : Nat) (a b s m : String) (db : Db) (i : String) :
    db_get (log_sync now a b s m db) i = db_get db i := rfl

theorem push_loop_cons_fail (failing : List String) (now : Nat) (n : Note)
    (rest : List Note) (s : PushStats) (db : Db) (rem : List KeepNote) (c : Nat)
    (hf : failing.contains n.id = true) :
    push_loop failing now (n :: rest) s db rem c =
      push_loop failing now rest { s with errors := s.errors + 1 }
        (log_sync now "push" n.id "error" "provider error" db) rem c := by
  simp only [push_loop, hf, if_pos]

theorem push_loop_cons_upd (failing : List String) (now : Nat) (n : Note)
    (rest : List Note) (s : PushStats) (db : Db) (rem : List KeepNote) (c : Nat)
    (kid : String) (kn : KeepNote)
    (hf : failing.contains n.id = false) (hk : n.keep_id = some kid)
    (hg : rem_get rem kid = some kn) :
    push_loop failing now (n :: rest) s db rem c =
      push_loop failing now rest { s with updated := s.updated + 1 }
        (save_note now { n with
          sync_status := SyncStatus.synced
          remote_modified := some now } db).2
        (rem.map (fun m => if m.id == kid then update_keep_note m n now else m))
        c := by
  simp only [push_loop, hf, Bool.false_eq_true, if_false, hk, hg]

theorem push_loop_cons_noget (failing : List String) (now : Nat) (n : Note)
    (rest : List Note) (s : PushStats) (db : Db) (rem : List KeepNote) (c : Nat)
    (kid : String)
    (hf : failing.contains n.id = false) (hk : n.keep_id = some kid)
    (hg : rem_get rem kid = none) :
    push_loop failing now (n :: rest) s db rem c =
      push_loop failing now rest s
        (save_note now { n with
          sync_status := SyncStatus.synced
          remote_modified := some now } db).2
        rem c := by
  simp only [push_loop, hf, Bool.false_eq_true, if_false, hk, hg]

theorem push_loop_cons_create (failing : List String) (now : Nat) (n : Note)
    (rest : List Note) (s : PushStats) (db : Db) (rem : List KeepNote) (c : Nat)
    (hf : failing.contains n.id = false) (hk : n.keep_id = none) :
    push_loop failing now (n :: rest) s db rem c =
      push_loop failing now rest { s with created := s.created + 1 }
        (save_note now { n with
          keep_id := some (uuidOf c)
          sync_status := SyncStatus.synced
          remote_modified := some now } db).2
        (rem ++ [(create_keep_note n now c).1]) (c + 1) := by
  simp only [push_loop, hf, Bool.false_eq_true, if_false, hk]
  rfl

theorem push_loop_ctr_mono (failing : List String) (now : Nat) :
    ∀ (sel : List Note) (s : PushStats) (db : Db) (rem : List KeepNote) (c : Nat),
    c ≤ (push_loop failing now sel s db rem c).2.2.2 := by
  intro sel
  induction sel with
  | nil => intro s db rem c; exact Nat.le_refl c
  | cons n rest ih =>
    intro s db rem c
    by_cases hf : failing.contains n.id = true
    · rw [push_loop_cons_fail failing now n rest s db rem c hf]
      exact ih _ _ _ _
    · have hf' : failing.contains n.id = false := by simpa using hf
      cases hk : n.keep_id with
      | some kid =>
        cases hg : rem_get rem kid with
        | some kn =>
          rw [push_loop_cons_upd failing now n rest s db rem c kid kn hf' hk hg]
          exact ih _ _ _ _
        | none =>
          rw [push_loop_cons_noget failing now n rest s db rem c kid hf' hk hg]
          exact ih _ _ _ _
      | none =>
        rw [push_loop_cons_create failing now n rest s db rem c hf' hk]
        exact Nat.le_trans (Nat.le_succ c) (ih _ _ _ _)

theorem push_loop_db_frame (failing : List String) (now : Nat) :
    ∀ (sel : List Note) (s : PushStats) (db : Db) (rem : List KeepNote) (c : Nat)
    (i : String), (∀ m ∈ sel, m.id ≠ i) →
    db_get (push_loop failing now sel s db rem c).2.1 i = db_get db i := by
  intro sel
  induction sel with
  | nil => intro s db rem c i _; rfl
  | cons n rest ih =>
    intro s db rem c i hni
    have hn : n.id ≠ i := fun hc => hni n (List.mem_cons_self n rest) hc
    have hrest : ∀ m ∈ rest, m.id ≠ i :=
      fun m hm => hni m (List.mem_cons_of_mem n hm)
    have hni' : i ≠ n.id := fun hc => hn hc.symm
    by_cases hf : failing.contains n.id = true
    · rw [push_loop_cons_fail failing now n rest s db rem c hf,
        ih _ _ _ _ i hrest, db_get_log_sync]
    · have hf' : failing.contains n.id = false := by simpa using hf
      cases hk : n.keep_id with
      | some kid =>
        cases hg : rem_get rem kid with
        | some kn =>
          rw [push_loop_cons_upd failing now n rest s db rem c kid kn hf' hk hg,
            ih _ _ _ _ i hrest]
          exact db_get_save_note_other now _ db i hni'
        | none =>
          rw [push_loop_cons_noget failing now n rest s db rem c kid hf' hk hg,
            ih _ _ _ _ i hrest]
          exact db_get_save_note_other now _ db i hni'
      | none =>
        rw [push_loop_cons_create failing now n rest s db rem c hf' hk,
          ih _ _ _ _ i hrest]
        exact db_get_save_note_other now _ db i hni'

theorem rem_get_cons (m : KeepNote) (t : List KeepNote) (kid : String) :
    rem_get (m :: t) kid =
      if (m.id == kid) = true then some m else rem_get t kid := by
  by_cases hm : (m.id == kid) = true
  · rw [if_pos hm]
    exact List.find?_cons_of_pos t hm
  · rw [if_neg hm]
    exact List.find?_cons_of_neg t hm

theorem rem_get_map_self (g : KeepNote → KeepNote) (hg : ∀ m, (g m).id = m.id)
    (kid : String) : ∀ (rem : List KeepNote) (kn : KeepNote),
    rem_get rem kid = some kn →
    rem_get (rem.map (fun m => if m.id == kid then g m else m)) kid =
      some (g kn) := by
  intro rem
  induction rem with
  | nil => intro kn h; exact absurd h (by simp [rem_get])
  | cons m t ih =>
    intro kn h
    rw [rem_get_cons] at h
    rw [List.map_cons]
    by_cases hm : (m.id == kid) = true
    · rw [if_pos hm] at h
      injection h with h
      subst h
      rw [if_pos hm, rem_get_cons, if_pos (by rw [hg m]; exact hm)]
    · rw [if_neg hm] at h
      rw [if_neg hm, rem_get_cons, if_neg hm]
      exact ih kn h

theorem rem_get_map_other (g : KeepNote → KeepNote) (hg : ∀ m, (g m).id = m.id)
    (kid kid' : String) (hne : kid ≠ kid') : ∀ (rem : List KeepNote),
    rem_get (rem.map (fun m => if m.id == kid' then g m else m)) kid =
      rem_get rem kid := by
  intro rem
  induction rem with
  | nil => rfl
  | cons m t ih =>
    rw [List.map_cons]
    by_cases hm : (m.id == kid') = true
    · have hmk : m.id = kid' := by simpa using hm
      have h1 : ((g m).id == kid) = false := by
        rw [hg m, hmk]
        exact beq_eq_false_iff_ne.mpr (fun hc => hne hc.symm)
      have h2 : (m.id == kid) = false := by
        rw [hmk]
        exact beq_eq_false_iff_ne.mpr (fun hc => hne hc.symm)
      rw [if_pos hm, rem_get_cons, rem_get_cons, h1, h2]
      simp only [Bool.false_eq_true, if_false]
      exact ih
    · rw [if_neg hm, rem_get_cons, rem_get_cons]
      by_cases hmk : (m.id == kid) = true
      · rw [if_pos hmk, if_pos hmk]
      · rw [if_neg hmk, if_neg hmk]
        exact ih

theorem rem_get_append_ne (rem : List KeepNote) (kn : KeepNote) (kid : String)
    (h : (kn.id == kid) = false) :
    rem_get (rem ++ [kn]) kid = rem_get rem kid := by
  show List.find? (fun m => m.id == kid) (rem ++ [kn]) = _
  rw [List.find?_append]
  have hnone : List.find? (fun m => m.id == kid) [kn] = none := by
    rw [List.find?_eq_none]
    intro x hx
    simp only [List.mem_singleton] at hx
    subst hx
    simp [h]
  rw [hnone]
  exact Option.or_none

theorem rem_get_append_self (rem : List KeepNote) (kn : KeepNote) (kid : String)
    (hnone : rem_get rem kid = none) (hid : (kn.id == kid) = true) :
    rem_get (rem ++ [kn]) kid = some kn := by
  show List.find? (fun m => m.id == kid) (rem ++ [kn]) = _
  rw [List.find?_append]
  have h1 : List.find? (fun m => m.id == kid) rem = none := hnone
  rw [h1]
  show rem_get [kn] kid = some kn
  rw [rem_get_cons, if_pos hid]

theorem push_loop_rem_frame (failing : List String) (now : Nat) :
    ∀ (sel : List Note) (s : PushStats) (db : Db) (rem : List KeepNote) (c : Nat)
    (kid : String),
    (∀ m ∈ sel, m.keep_id ≠ some kid) →
    (∀ k, c ≤ k → kid ≠ uuidOf k) →
    rem_get (push_loop failing now sel s db rem c).2.2.1 kid = rem_get rem kid := by
  intro sel
  induction sel with
  | nil => intro s db rem c kid _ _; rfl
  | cons n rest ih =>
    intro s db rem c kid hnl hfr
    have hn : n.keep_id ≠ some kid := hnl n (List.mem_cons_self n rest)
    have hrest : ∀ m ∈ rest, m.keep_id ≠ some kid :=
      fun m hm => hnl m (List.mem_cons_of_mem n hm)
    by_cases hf : failing.contains n.id = true
    · rw [push_loop_cons_fail failing now n rest s db rem c hf]
      exact ih _ _ _ _ _ hrest hfr
    · have hf' : failing.contains n.id = false := by simpa using hf
      cases hk : n.keep_id with
      | some kid' =>
        have hne : kid ≠ kid' := by
          intro hc
          exact hn (by rw [hk, hc])
        cases hg : rem_get rem kid' with
        | some kn =>
          rw [push_loop_cons_upd failing now n rest s db rem c kid' kn hf' hk hg,
            ih _ _ _ _ _ hrest hfr,
            rem_get_map_other (fun m => update_keep_note m n now)
              (fun m => rfl) kid kid' hne rem]
        | none =>
          rw [push_loop_cons_noget failing now n rest s db rem c kid' hf' hk hg]
          exact ih _ _ _ _ _ hrest hfr
      | none =>
        rw [push_loop_cons_create failing now n rest s db rem c hf' hk]
        have hfr' : ∀ k, c + 1 ≤ k → kid ≠ uuidOf k :=
          fun k hkk => hfr k (by omega)
        rw [ih _ _ _ _ _ hrest hfr']
        exact rem_get_append_ne rem _ kid
          (beq_eq_false_iff_ne.mpr
            (fun hc : (create_keep_note n now c).1.id = kid =>
              hfr c (Nat.le_refl c) (hc ▸ rfl)))

theorem push_loop_sel_db (failing : List String) (now : Nat) :
    ∀ (sel : List Note) (s : PushStats) (db : Db) (rem : List KeepNote) (c : Nat)
    (n : Note), n ∈ sel → (sel.map Note.id).Nodup →
    failing.contains n.id = false →
    (∀ kid, n.keep_id = some kid →
      db_get (push_loop failing now sel s db rem c).2.1 n.id =
        some (pushed_note now n (some kid))) ∧
    (n.keep_id = none →
      ∃ j, c ≤ j ∧
        db_get (push_loop failing now sel s db rem c).2.1 n.id =
          some (pushed_note now n (some (uuidOf j)))) := by
  intro sel
  induction sel with
  | nil => intro s db rem c n hn; exact absurd hn (List.not_mem_nil n)
  | cons m rest ih =>
    intro s db rem c n hn hnd hnf
    rw [List.map_cons, List.nodup_cons] at hnd
    rcases List.mem_cons.mp hn with heq | hmem
    · -- n is the head: its step writes the record, the rest never touches it
      subst heq
      have hrest : ∀ p ∈ rest, p.id ≠ n.id := by
        intro p hp hc
        exact hnd.1 (hc ▸ List.mem_map_of_mem Note.id hp)
      constructor
      · intro kid hk
        have hrec : pushed_note now n (some kid) =
            Note.update_hash { n with
              sync_status := SyncStatus.synced
              remote_modified := some now
              updated_at := now } := by
          unfold pushed_note
          rw [← hk]
        cases hg : rem_get rem kid with
        | some kn =>
          rw [push_loop_cons_upd failing now n rest s db rem c kid kn hnf hk hg,
            push_loop_db_frame failing now rest _ _ _ _ n.id hrest, hrec]
          exact db_get_save_note now _ db
        | none =>
          rw [push_loop_cons_noget failing now n rest s db rem c kid hnf hk hg,
            push_loop_db_frame failing now rest _ _ _ _ n.id hrest, hrec]
          exact db_get_save_note now _ db
      · intro hk
        refine ⟨c, Nat.le_refl c, ?_⟩
        rw [push_loop_cons_create failing now n rest s db rem c hnf hk,
          push_loop_db_frame failing now rest _ _ _ _ n.id hrest]
        exact db_get_save_note now _ db
    · -- n sits further down: step over the head, recurse
      by_cases hfm : failing.contains m.id = true
      · rw [push_loop_cons_fail failing now m rest s db rem c hfm]
        exact ih _ _ _ _ n hmem hnd.2 hnf
      · have hfm' : failing.contains m.id = false := by simpa using hfm
        cases hkm : m.keep_id with
        | some kid' =>
          cases hg : rem_get rem kid' with
          | some kn =>
            rw [push_loop_cons_upd failing now m rest s db rem c kid' kn hfm' hkm hg]
            exact ih _ _ _ _ n hmem hnd.2 hnf
          | none =>
            rw [push_loop_cons_noget failing now m rest s db rem c kid' hfm' hkm hg]
            exact ih _ _ _ _ n hmem hnd.2 hnf
        | none =>
          rw [push_loop_cons_create failing now m rest s db rem c hfm' hkm]
          obtain ⟨h1, h2⟩ := ih { s with created := s.created + 1 }
            (save_note now { m with
              keep_id := some (uuidOf c)
              sync_status := SyncStatus.synced
              remote_modified := some now } db).2
            (rem ++ [(create_keep_note m now c).1]) (c + 1) n hmem hnd.2 hnf
          refine ⟨h1, fun hk => ?_⟩
          obtain ⟨j, hj, hjr⟩ := h2 hk
          exact ⟨j, by omega, hjr⟩

theorem rem_get_eq_none (rem : List KeepNote) (kid : String)
    (h : ∀ kn ∈ rem, kn.id ≠ kid) : rem_get rem kid = none :=
  List.find?_eq_none.mpr (fun kn hkn hb => h kn hkn (by simpa using hb))

theorem mem_map_update_id (rem : List KeepNote) (kid' : String)
    (g : KeepNote → KeepNote) (hg : ∀ m, (g m).id = m.id) (kn' : KeepNote)
    (h : kn' ∈ rem.map (fun m => if m.id == kid' then g m else m)) :
    ∃ kn ∈ rem, kn'.id = kn.id := by
  obtain ⟨kn0, h0, heq⟩ := List.mem_map.mp h
  refine ⟨kn0, h0, ?_⟩
  subst heq
  by_cases hc : (kn0.id == kid') = true
  · rw [if_pos hc]
    exact hg kn0
  · rw [if_neg hc]

theorem push_loop_sel_rem_linked (failing : List String) (now : Nat) :
    ∀ (sel : List Note) (s : PushStats) (db : Db) (rem : List KeepNote) (c : Nat)
    (n : Note) (kid : String),
    n ∈ sel → (sel.map Note.id).Nodup → failing.contains n.id = false →
    n.keep_id = some kid →
    (∀ m ∈ sel, m.id ≠ n.id → m.keep_id ≠ some kid) →
    (∀ k, c ≤ k → kid ≠ uuidOf k) →
    (∀ kn, rem_get rem kid = some kn →
      rem_get (push_loop failing now sel s db rem c).2.2.1 kid =
        some (update_keep_note kn n now)) ∧
    (rem_get rem kid = none →
      rem_get (push_loop failing now sel s db rem c).2.2.1 kid = none) := by
  intro sel
  induction sel with
  | nil => intro s db rem c n kid hn; exact absurd hn (List.not_mem_nil n)
  | cons m rest ih =>
    intro s db rem c n kid hn hnd hnf hk huniq hfr
    rw [List.map_cons, List.nodup_cons] at hnd
    rcases List.mem_cons.mp hn with heq | hmem
    · subst heq
      have hrestid : ∀ p ∈ rest, p.id ≠ n.id := by
        intro p hp hc
        exact hnd.1 (hc ▸ List.mem_map_of_mem Note.id hp)
      have hrestl : ∀ p ∈ rest, p.keep_id ≠ some kid :=
        fun p hp => huniq p (List.mem_cons_of_mem n hp) (hrestid p hp)
      constructor
      · intro kn hg
        rw [push_loop_cons_upd failing now n rest s db rem c kid kn hnf hk hg,
          push_loop_rem_frame failing now rest _ _ _ _ kid hrestl hfr]
        exact rem_get_map_self (fun m => update_keep_note m n now)
          (fun m => rfl) kid rem kn hg
      · intro hg
        rw [push_loop_cons_noget failing now n rest s db rem c kid hnf hk hg,
          push_loop_rem_frame failing now rest _ _ _ _ kid hrestl hfr]
        exact hg
    · have hmid : m.id ≠ n.id := by
        intro hc
        exact hnd.1 (hc ▸ List.mem_map_of_mem Note.id hmem)
      have huniq' : ∀ p ∈ rest, p.id ≠ n.id → p.keep_id ≠ some kid :=
        fun p hp => huniq p (List.mem_cons_of_mem m hp)
      by_cases hfm : failing.contains m.id = true
      · rw [push_loop_cons_fail failing now m rest s db rem c hfm]
        exact ih _ _ _ _ n kid hmem hnd.2 hnf hk huniq' hfr
      · have hfm' : failing.contains m.id = false := by simpa using hfm
        cases hkm : m.keep_id with
        | some kid' =>
          have hne : kid ≠ kid' := by
            intro hc
            exact huniq m (List.mem_cons_self m rest) hmid (by rw [hkm, hc])
          cases hg : rem_get rem kid' with
          | some kn =>
            rw [push_loop_cons_upd failing now m rest s db rem c kid' kn hfm' hkm hg]
            have hmap := rem_get_map_other (fun p => update_keep_note p m now)
              (fun p => rfl) kid kid' hne rem
            obtain ⟨ih1, ih2⟩ := ih { s with updated := s.updated + 1 }
              (save_note now { m with
                sync_status := SyncStatus.synced
                remote_modified := some now } db).2
              (rem.map (fun p => if p.id == kid' then update_keep_note p m now else p))
              c n kid hmem hnd.2 hnf hk huniq' hfr
            exact ⟨fun kn0 hg0 => ih1 kn0 (by rw [hmap]; exact hg0),
              fun hg0 => ih2 (by rw [hmap]; exact hg0)⟩
          | none =>
            rw [push_loop_cons_noget failing now m rest s db rem c kid' hfm' hkm hg]
            exact ih _ _ _ _ n kid hmem hnd.2 hnf hk huniq' hfr
        | none =>
          rw [push_loop_cons_create failing now m rest s db rem c hfm' hkm]
          have hfr' : ∀ k, c + 1 ≤ k → kid ≠ uuidOf k :=
            fun k hkk => hfr k (by omega)
          have happ : rem_get (rem ++ [(create_keep_note m now c).1]) kid =
              rem_get rem kid :=
            rem_get_append_ne rem _ kid
              (beq_eq_false_iff_ne.mpr
                (fun hc : (create_keep_note m now c).1.id = kid =>
                  hfr c (Nat.le_refl c) (hc ▸ rfl)))
          obtain ⟨ih1, ih2⟩ := ih { s with created := s.created + 1 }
            (save_note now { m with
              keep_id := some (uuidOf c)
              sync_status := SyncStatus.synced
              remote_modified := some now } db).2
            (rem ++ [(create_keep_note m now c).1]) (c + 1)
            n kid hmem hnd.2 hnf hk huniq' hfr'
          exact ⟨fun kn0 hg0 => ih1 kn0 (by rw [happ]; exact hg0),
            fun hg0 => ih2 (by rw [happ]; exact hg0)⟩

theorem push_loop_sel_create (failing : List String) (now : Nat) :
    ∀ (sel : List Note) (s : PushStats) (db : Db) (rem : List KeepNote) (c : Nat)
    (n : Note),
    n ∈ sel → (sel.map Note.id).Nodup → failing.contains n.id = false →
    n.keep_id = none →
    (∀ m ∈ sel, ∀ k, c ≤ k → m.keep_id ≠ some (uuidOf k)) →
    (∀ kn ∈ rem, ∀ k, c ≤ k → kn.id ≠ uuidOf k) →
    ∃ j, c ≤ j ∧
      db_get (push_loop failing now sel s db rem c).2.1 n.id =
        some (pushed_note now n (some (uuidOf j))) ∧
      rem_get (push_loop failing now sel s db rem c).2.2.1 (uuidOf j) =
        some (create_keep_note n now j).1 := by
  intro sel
  induction sel with
  | nil => intro s db rem c n hn; exact absurd hn (List.not_mem_nil n)
  | cons m rest ih =>
    intro s db rem c n hn hnd hnf hk hself hremf
    rw [List.map_cons, List.nodup_cons] at hnd
    rcases List.mem_cons.mp hn with heq | hmem
    · subst heq
      refine ⟨c, Nat.le_refl c, ?_, ?_⟩
      · have hrestid : ∀ p ∈ rest, p.id ≠ n.id := by
          intro p hp hc
          exact hnd.1 (hc ▸ List.mem_map_of_mem Note.id hp)
        rw [push_loop_cons_create failing now n rest s db rem c hnf hk,
          push_loop_db_frame failing now rest _ _ _ _ n.id hrestid]
        exact db_get_save_note now _ db
      · rw [push_loop_cons_create failing now n rest s db rem c hnf hk]
        have hrestl : ∀ p ∈ rest, p.keep_id ≠ some (uuidOf c) :=
          fun p hp => hself p (List.mem_cons_of_mem n hp) c (Nat.le_refl c)
        have hfrk : ∀ k, c + 1 ≤ k → uuidOf c ≠ uuidOf k := by
          intro k hkk hc
          have := uuidOf_inj hc
          omega
        rw [push_loop_rem_frame failing now rest _ _ _ _ (uuidOf c) hrestl hfrk]
        exact rem_get_append_self rem _ (uuidOf c)
          (rem_get_eq_none rem (uuidOf c)
            (fun kn hkn => hremf kn hkn c (Nat.le_refl c)))
          (beq_self_eq_true (uuidOf c))
    · by_cases hfm : failing.contains m.id = true
      · rw [push_loop_cons_fail failing now m rest s db rem c hfm]
        exact ih _ _ _ _ n hmem hnd.2 hnf hk
          (fun p hp => hself p (List.mem_cons_of_mem m hp)) hremf
      · have hfm' : failing.contains m.id = false := by simpa using hfm
        have hself' : ∀ p ∈ rest, ∀ k, c ≤ k → p.keep_id ≠ some (uuidOf k) :=
          fun p hp => hself p (List.mem_cons_of_mem m hp)
        cases hkm : m.keep_id with
        | some kid' =>
          cases hg : rem_get rem kid' with
          | some kn =>
            rw [push_loop_cons_upd failing now m rest s db rem c kid' kn hfm' hkm hg]
            have hremf' : ∀ kn' ∈ rem.map
                (fun p => if p.id == kid' then update_keep_note p m now else p),
                ∀ k, c ≤ k → kn'.id ≠ uuidOf k := by
              intro kn' hkn' k hkk
              obtain ⟨kn0, h0, hid⟩ := mem_map_update_id rem kid'
                (fun p => update_keep_note p m now) (fun p => rfl) kn' hkn'
              rw [hid]
              exact hremf kn0 h0 k hkk
            exact ih _ _ _ _ n hmem hnd.2 hnf hk hself' hremf'
          | none =>
            rw [push_loop_cons_noget failing now m rest s db rem c kid' hfm' hkm hg]
            exact ih _ _ _ _ n hmem hnd.2 hnf hk hself' hremf
        | none =>
          rw [push_loop_cons_create failing now m rest s db rem c hfm' hkm]
          have hself2 : ∀ p ∈ rest, ∀ k, c + 1 ≤ k → p.keep_id ≠ some (uuidOf k) :=
            fun p hp k hkk => hself' p hp k (by omega)
          have hremf2 : ∀ kn' ∈ rem ++ [(create_keep_note m now c).1],
              ∀ k, c + 1 ≤ k → kn'.id ≠ uuidOf k := by
            intro kn' hkn' k hkk
            rcases List.mem_append.mp hkn' with h1 | h2
            · exact hremf kn' h1 k (by omega)
            · simp only [List.mem_singleton] at h2
              subst h2
              show uuidOf c ≠ uuidOf k
              intro hc
              have := uuidOf_inj hc
              omega
          obtain ⟨j, hj, hdb, hrem⟩ := ih { s with created := s.created + 1 }
            (save_note now { m with
              keep_id := some (uuidOf c)
              sync_status := SyncStatus.synced
              remote_modified := some now } db).2
            (rem ++ [(create_keep_note m now c).1]) (c + 1)
            n hmem hnd.2 hnf hk hself2 hremf2
          exact ⟨j, by omega, hdb, hrem⟩

theorem push_loop_errors_count (failing : List String) (now : Nat) :
    ∀ (sel : List Note) (s : PushStats) (db : Db) (rem : List KeepNote) (c : Nat),
    (push_loop failing now sel s db rem c).1.errors =
      s.errors + sel.countP (fun m => failing.contains m.id) := by
  intro sel
  induction sel with
  | nil => intro s db rem c; simp [push_loop]
  | cons n rest ih =>
    intro s db rem c
    rw [List.countP_cons]
    by_cases hf : failing.contains n.id = true
    · rw [push_loop_cons_fail failing now n rest s db rem c hf, ih]
      simp only [hf, if_pos]
      omega
    · have hf' : failing.contains n.id = false := by simpa using hf
      have hz : (if (fun m => failing.contains m.id) n = true then 1 else 0) = 0 := by
        simp only [hf', Bool.false_eq_true, if_false]
      cases hk : n.keep_id with
      | some kid =>
        cases hg : rem_get rem kid with
        | some kn =>
          rw [push_loop_cons_upd failing now n rest s db rem c kid kn hf' hk hg, ih,
            hz]
          simp
        | none =>
          rw [push_loop_cons_noget failing now n rest s db rem c kid hf' hk hg, ih,
            hz]
          simp
      | none =>
        rw [push_loop_cons_create failing now n rest s db rem c hf' hk, ih, hz]
        simp

theorem push_loop_log_mono (failing : List String) (now : Nat) :
    ∀ (sel : List Note) (s : PushStats) (db : Db) (rem : List KeepNote) (c : Nat)
    (e : SyncLogEntry), e ∈ db.sync_log →
    e ∈ (push_loop failing now sel s db rem c).2.1.sync_log := by
  intro sel
  induction sel with
  | nil => intro s db rem c e he; exact he
  | cons n rest ih =>
    intro s db rem c e he
    by_cases hf : failing.contains n.id = true
    · rw [push_loop_cons_fail failing now n rest s db rem c hf]
      exact ih _ _ _ _ e (List.mem_append_left _ he)
    · have hf' : failing.contains n.id = false := by simpa using hf
      cases hk : n.keep_id with
      | some kid =>
        cases hg : rem_get rem kid with
        | some kn =>
          rw [push_loop_cons_upd failing now n rest s db rem c kid kn hf' hk hg]
          exact ih _ _ _ _ e he
        | none =>
          rw [push_loop_cons_noget failing now n rest s db rem c kid hf' hk hg]
          exact ih _ _ _ _ e he
      | none =>
        rw [push_loop_cons_create failing now n rest s db rem c hf' hk]
        exact ih _ _ _ _ e he

theorem push_loop_failing_log (failing : List String) (now : Nat) :
    ∀ (sel : List Note) (s : PushStats) (db : Db) (rem : List KeepNote) (c : Nat)
    (n : Note), n ∈ sel → failing.contains n.id = true →
    (⟨now, "push", n.id, "error", "provider error"⟩ : SyncLogEntry) ∈
      (push_loop failing now sel s db rem c).2.1.sync_log := by
  intro sel
  induction sel with
  | nil => intro s db rem c n hn; exact absurd hn (List.not_mem_nil n)
  | cons m rest ih =>
    intro s db rem c n hn hnf
    rcases List.mem_cons.mp hn with heq | hmem
    · subst heq
      rw [push_loop_cons_fail failing now n rest s db rem c hnf]
      exact push_loop_log_mono failing now rest _ _ _ _ _
        (List.mem_append_right _ (List.mem_singleton.mpr rfl))
    · by_cases hfm : failing.contains m.id = true
      · rw [push_loop_cons_fail failing now m rest s db rem c hfm]
        exact ih _ _ _ _ n hmem hnf
      · have hfm' : failing.contains m.id = false := by simpa using hfm
        cases hkm : m.keep_id with
        | some kid =>
          cases hg : rem_get rem kid with
          | some kn =>
            rw [push_loop_cons_upd failing now m rest s db rem c kid kn hfm' hkm hg]
            exact ih _ _ _ _ n hmem hnf
          | none =>
            rw [push_loop_cons_noget failing now m rest s db rem c kid hfm' hkm hg]
            exact ih _ _ _ _ n hmem hnf
        | none =>
          rw [push_loop_cons_create failing now m rest s db rem c hfm' hkm]
          exact ih _ _ _ _ n hmem hnf

theorem push_loop_failing_frame (failing : List String) (now : Nat) :
    ∀ (sel : List Note) (s : PushStats) (db : Db) (rem : List KeepNote) (c : Nat)
    (n : Note), n ∈ sel → (sel.map Note.id).Nodup →
    failing.contains n.id = true →
    db_get (push_loop failing now sel s db rem c).2.1 n.id = db_get db n.id := by
  intro sel
  induction sel with
  | nil => intro s db rem c n hn; exact absurd hn (List.not_mem_nil n)
  | cons m rest ih =>
    intro s db rem c n hn hnd hnf
    rw [List.map_cons, List.nodup_cons] at hnd
    rcases List.mem_cons.mp hn with heq | hmem
    · subst heq
      have hrestid : ∀ p ∈ rest, p.id ≠ n.id := by
        intro p hp hc
        exact hnd.1 (hc ▸ List.mem_map_of_mem Note.id hp)
      rw [push_loop_cons_fail failing now n rest s db rem c hnf,
        push_loop_db_frame failing now rest _ _ _ _ n.id hrestid,
        db_get_log_sync]
    · have hmid : n.id ≠ m.id := by
        intro hc
        exact hnd.1 (hc ▸ List.mem_map_of_mem Note.id hmem)
      by_cases hfm : failing.contains m.id = true
      · rw [push_loop_cons_fail failing now m rest s db rem c hfm,
          ih _ _ _ _ n hmem hnd.2 hnf, db_get_log_sync]
      · have hfm' : failing.contains m.id = false := by simpa using hfm
        cases hkm : m.keep_id with
        | some kid =>
          cases hg : rem_get rem kid with
          | some kn =>
            rw [push_loop_cons_upd failing now m rest s db rem c kid kn hfm' hkm hg,
              ih _ _ _ _ n hmem hnd.2 hnf]
            exact db_get_save_note_other now _ db n.id hmid
          | none =>
            rw [push_loop_cons_noget failing now m rest s db rem c kid hfm' hkm hg,
              ih _ _ _ _ n hmem hnd.2 hnf]
            exact db_get_save_note_other now _ db n.id hmid
        | none =>
          rw [push_loop_cons_create failing now m rest s db rem c hfm' hkm,
            ih _ _ _ _ n hmem hnd.2 hnf]
          exact db_get_save_note_other now _ db n.id hmid

theorem eq_of_mem_of_ids_nodup :
    ∀ (l : List Note), (l.map Note.id).Nodup →
    ∀ a ∈ l, ∀ b ∈ l, a.id = b.id → a = b := by
  intro l
  induction l with
  | nil => intro _ a ha; exact absurd ha (List.not_mem_nil a)
  | cons x t ih =>
    intro hnd a ha b hb hab
    rw [List.map_cons, List.nodup_cons] at hnd
    rcases List.mem_cons.mp ha with rfl | ha' <;>
      rcases List.mem_cons.mp hb with rfl | hb'
    · rfl
    · exact absurd (by rw [hab]; exact List.mem_map_of_mem Note.id hb') hnd.1
    · exact absurd (by rw [← hab]; exact List.mem_map_of_mem Note.id ha') hnd.1
    · exact ih hnd.2 a ha' b hb' hab

theorem eq_of_link_of_links_nodup :
    ∀ (l : List Note), (l.filterMap Note.keep_id).Nodup →
    ∀ a ∈ l, ∀ b ∈ l, ∀ kid : String,
    a.keep_id = some kid → b.keep_id = some kid → a = b := by
  intro l
  induction l with
  | nil => intro _ a ha; exact absurd ha (List.not_mem_nil a)
  | cons x t ih =>
    intro hnd a ha b hb kid hak hbk
    cases hx : x.keep_id with
    | some v =>
      rw [List.filterMap_cons_some hx, List.nodup_cons] at hnd
      rcases List.mem_cons.mp ha with rfl | ha' <;>
        rcases List.mem_cons.mp hb with rfl | hb'
      · rfl
      · have hv : v = kid := by rw [hx] at hak; injection hak
        exact absurd (List.mem_filterMap.mpr ⟨b, hb', hv ▸ hbk⟩) hnd.1
      · have hv : v = kid := by rw [hx] at hbk; injection hbk
        exact absurd (List.mem_filterMap.mpr ⟨a, ha', hv ▸ hak⟩) hnd.1
      · exact ih hnd.2 a ha' b hb' kid hak hbk
    | none =>
      rw [List.filterMap_cons_none hx] at hnd
      rcases List.mem_cons.mp ha with rfl | ha' <;>
        rcases List.mem_cons.mp hb with rfl | hb'
      · rfl
      · rw [hx] at hak; cases hak
      · rw [hx] at hbk; cases hbk
      · exact ih hnd a ha' b hb' kid hak hbk

theorem push_select_ids_nodup (db : Db) (hids : (db.notes.map Note.id).Nodup) :
    ((push_select db).map Note.id).Nodup :=
  List.Nodup.sublist (List.Sublist.map Note.id (List.filter_sublist db.notes)) hids

/-- C4 (amended): with no provider failure, the push phase touches exactly
the non-trashed notes with status `local_only`/`pending_push`.  A
non-selected note's record is untouched.  Every selected note ends `synced`
with `remoteModified = now`.  A selected note without a remote id gets a
fresh remote id stored and a remote note created under it; a selected note
whose remote id resolves to a fetched remote note has that remote note
updated; and — the part the original claim missed — a selected note whose
remote id resolves to nothing triggers no remote write at all (the remote
store still has no note under that id) yet the note is nevertheless marked
`synced`. -/
theorem push_phase_effects (db : Db) (rem : List KeepNote) (now c : Nat)
    (hids : (db.notes.map Note.id).Nodup)
    (hlinks : (db.notes.filterMap Note.keep_id).Nodup)
    (hfresh : ∀ k, c ≤ k →
      (∀ n ∈ db.notes, n.keep_id ≠ some (uuidOf k)) ∧
      (∀ kn ∈ rem, kn.id ≠ uuidOf k)) :
    (∀ n ∈ db.notes, push_pred n = false →
      db_get (push_to_keep [] now db rem c).2.1 n.id = db_get db n.id) ∧
    (∀ n ∈ db.notes, push_pred n = true →
      (∀ kid, n.keep_id = some kid →
        db_get (push_to_keep [] now db rem c).2.1 n.id =
          some (pushed_note now n (some kid)) ∧
        (∀ kn, rem_get rem kid = some kn →
          rem_get (push_to_keep [] now db rem c).2.2.1 kid =
            some (update_keep_note kn n now)) ∧
        (rem_get rem kid = none →
          rem_get (push_to_keep [] now db rem c).2.2.1 kid = none)) ∧
      (n.keep_id = none →
        ∃ j, c ≤ j ∧
          db_get (push_to_keep [] now db rem c).2.1 n.id =
            some (pushed_note now n (some (uuidOf j))) ∧
          rem_get (push_to_keep [] now db rem c).2.2.1 (uuidOf j) =
            some (create_keep_note n now j).1)) := by
  have hselnd := push_select_ids_nodup db hids
  constructor
  · intro n hn hp
    apply push_loop_db_frame
    intro m hm hc
    have hmn : m ∈ db.notes := (List.mem_filter.mp hm).1
    have hmp : push_pred m = true := (List.mem_filter.mp hm).2
    rw [eq_of_mem_of_ids_nodup db.notes hids m hmn n hn hc, hp] at hmp
    cases hmp
  · intro n hn hp
    have hnsel : n ∈ push_select db := List.mem_filter.mpr ⟨hn, hp⟩
    have hnf : ([] : List String).contains n.id = false := rfl
    constructor
    · intro kid hk
      have hkidfresh : ∀ k, c ≤ k → kid ≠ uuidOf k := by
        intro k hkk hc
        exact (hfresh k hkk).1 n hn (by rw [hk, hc])
      have huniq : ∀ m ∈ push_select db, m.id ≠ n.id → m.keep_id ≠ some kid := by
        intro m hm hmne hmk
        exact hmne (congrArg Note.id
          (eq_of_link_of_links_nodup db.notes hlinks m
            (List.mem_filter.mp hm).1 n hn kid hmk hk))
      have hdb := (push_loop_sel_db [] now (push_select db) ⟨0, 0, 0, 0⟩ db rem c
        n hnsel hselnd hnf).1 kid hk
      have hlinked := push_loop_sel_rem_linked [] now (push_select db)
        ⟨0, 0, 0, 0⟩ db rem c n kid hnsel hselnd hnf hk huniq hkidfresh
      exact ⟨hdb, hlinked.1, hlinked.2⟩
    · intro hk
      have hself : ∀ m ∈ push_select db, ∀ k, c ≤ k →
          m.keep_id ≠ some (uuidOf k) :=
        fun m hm k hkk => (hfresh k hkk).1 m (List.mem_filter.mp hm).1
      have hremf : ∀ kn ∈ rem, ∀ k, c ≤ k → kn.id ≠ uuidOf k :=
        fun kn hkn k hkk => (hfresh k hkk).2 kn hkn
      exact push_loop_sel_create [] now (push_select db) ⟨0, 0, 0, 0⟩ db rem c
        n hnsel hselnd hnf hk hself hremf

/-- C4 witness: the amended push-phase description at a concrete store with a
linked pending note, an unlinked new note and an already-synced note. -/
theorem push_phase_effects_witness :
    (∀ n ∈ c4w_db.notes, push_pred n = false →
      db_get (push_to_keep [] 9 c4w_db [c4w_kn] 0).2.1 n.id =
        db_get c4w_db n.id) ∧
    (∀ n ∈ c4w_db.notes, push_pred n = true →
      (∀ kid, n.keep_id = some kid →
        db_get (push_to_keep [] 9 c4w_db [c4w_kn] 0).2.1 n.id =
          some (pushed_note 9 n (some kid)) ∧
        (∀ kn, rem_get [c4w_kn] kid = some kn →
          rem_get (push_to_keep [] 9 c4w_db [c4w_kn] 0).2.2.1 kid =
            some (update_keep_note kn n 9)) ∧
        (rem_get [c4w_kn] kid = none →
          rem_get (push_to_keep [] 9 c4w_db [c4w_kn] 0).2.2.1 kid = none)) ∧
      (n.keep_id = none →
        ∃ j, 0 ≤ j ∧
          db_get (push_to_keep [] 9 c4w_db [c4w_kn] 0).2.1 n.id =
            some (pushed_note 9 n (some (uuidOf j))) ∧
          rem_get (push_to_keep [] 9 c4w_db [c4w_kn] 0).2.2.1 (uuidOf j) =
            some (create_keep_note n 9 j).1)) :=
  push_phase_effects c4w_db [c4w_kn] 9 0 (by decide) (by decide)
    (by
      intro k hk
      constructor
      · intro n hn
        have hn' : n ∈ [c4w_sel, c4w_new, c4w_skip] := hn
        rcases List.mem_cons.mp hn' with rfl | hn'
        · intro hc
          exact ne_uuidOf (show 'R' ∈ ("RK" : String).data by decide)
            (by decide) k (Option.some_inj.mp hc)
        rcases List.mem_cons.mp hn' with rfl | hn'
        · exact fun hc => Option.noConfusion hc
        rcases List.mem_cons.mp hn' with rfl | hn'
        · exact fun hc => Option.noConfusion hc
        · exact absurd hn' (List.not_mem_nil n)
      · intro kn hkn
        rcases List.mem_cons.mp hkn with rfl | hkn
        · exact ne_uuidOf (show 'R' ∈ ("RK" : String).data by decide)
            (by decide) k
        · exact absurd hkn (List.not_mem_nil kn))

theorem db_get_set_setting (key value : String) (db : Db) (i : String) :
    db_get (set_setting key value db) i = db_get db i := rfl

/-- The success path of `sync` written out: guards passed, no escaping
exception — pull, push, record `last_sync`, release the flag. -/
theorem sync_success_eqn (st : EngineState) (failing : List String) (now : Nat)
    (hauth : st.is_authenticated = true) (hprog : st.sync_in_progress = false) :
    sync st failing false now =
      ({ success := true, message := "Sync completed successfully",
         stats := some ⟨(pull_from_keep now st.remote st.db st.ctr).1.new +
             (pull_from_keep now st.remote st.db st.ctr).1.updated,
           (push_to_keep failing now
               (pull_from_keep now st.remote st.db st.ctr).2.1
               st.remote (pull_from_keep now st.remote st.db st.ctr).2.2).1.created +
             (push_to_keep failing now
               (pull_from_keep now st.remote st.db st.ctr).2.1
               st.remote (pull_from_keep now st.remote st.db st.ctr).2.2).1.updated,
           0, 0⟩ },
       { st with
         db := set_setting "last_sync" (toString now)
           (push_to_keep failing now
             (pull_from_keep now st.remote st.db st.ctr).2.1
             st.remote (pull_from_keep now st.remote st.db st.ctr).2.2).2.1
         remote := (push_to_keep failing now
           (pull_from_keep now st.remote st.db st.ctr).2.1
           st.remote (pull_from_keep now st.remote st.db st.ctr).2.2).2.2.1
         ctr := (push_to_keep failing now
           (pull_from_keep now st.remote st.db st.ctr).2.1
           st.remote (pull_from_keep now st.remote st.db st.ctr).2.2).2.2.2
         last_sync := some now
         sync_in_progress := false }) := by
  unfold sync
  rw [hauth, hprog]
  simp only [Bool.not_true, Bool.false_eq_true, if_false]
  rfl

/-- C5 (amended): a per-note provider failure during push leaves that note's
persisted record unchanged (its status remains the pending one it had),
appends an error entry to the sync log, is counted in the push phase's
internal `errors` counter, and never aborts the phase or the cycle — every
other selected note is still pushed to `synced` and the cycle reports
success.  However the cycle's returned stats always carry `errors = 0`: the
push phase's error count is not propagated into the cycle's stats dict. -/
theorem push_error_isolated (st : EngineState) (failing : List String)
    (now : Nat) (n : Note)
    (hauth : st.is_authenticated = true) (hprog : st.sync_in_progress = false)
    (hids : (((pull_from_keep now st.remote st.db st.ctr).2.1).notes.map
      Note.id).Nodup)
    (hn : n ∈ push_select (pull_from_keep now st.remote st.db st.ctr).2.1)
    (hf : failing.contains n.id = true) :
    db_get (sync st failing false now).2.db n.id =
      db_get (pull_from_keep now st.remote st.db st.ctr).2.1 n.id ∧
    (⟨now, "push", n.id, "error", "provider error"⟩ : SyncLogEntry) ∈
      (sync st failing false now).2.db.sync_log ∧
    (push_to_keep failing now (pull_from_keep now st.remote st.db st.ctr).2.1
        st.remote (pull_from_keep now st.remote st.db st.ctr).2.2).1.errors =
      (push_select (pull_from_keep now st.remote st.db st.ctr).2.1).countP
        (fun m => failing.contains m.id) ∧
    (sync st failing false now).1.success = true ∧
    (∃ p q, (sync st failing false now).1.stats = some ⟨p, q, 0, 0⟩) ∧
    (∀ m ∈ push_select (pull_from_keep now st.remote st.db st.ctr).2.1,
      failing.contains m.id = false →
      ∃ rec, db_get (sync st failing false now).2.db m.id = some rec ∧
        rec.sync_status = SyncStatus.synced ∧
        rec.remote_modified = some now) := by
  have heqn := sync_success_eqn st failing now hauth hprog
  have hselnd := push_select_ids_nodup
    (pull_from_keep now st.remote st.db st.ctr).2.1 hids
  refine ⟨?_, ?_, ?_, ?_, ?_, ?_⟩
  · rw [heqn]
    show db_get (set_setting _ _ _) n.id = _
    rw [db_get_set_setting]
    exact push_loop_failing_frame failing now _ _ _ _ _ n hn hselnd hf
  · rw [heqn]
    exact push_loop_failing_log failing now _ _ _ _ _ n hn hf
  · have hcount := push_loop_errors_count failing now
      (push_select (pull_from_keep now st.remote st.db st.ctr).2.1)
      ⟨0, 0, 0, 0⟩ (pull_from_keep now st.remote st.db st.ctr).2.1 st.remote
      (pull_from_keep now st.remote st.db st.ctr).2.2
    exact hcount.trans (Nat.zero_add _)
  · rw [heqn]
  · exact ⟨_, _, by rw [heqn]⟩
  · intro m hm hmf
    rw [heqn]
    cases hk : m.keep_id with
    | some kid =>
      have hrec := (push_loop_sel_db failing now
        (push_select (pull_from_keep now st.remote st.db st.ctr).2.1)
        ⟨0, 0, 0, 0⟩ (pull_from_keep now st.remote st.db st.ctr).2.1 st.remote
        (pull_from_keep now st.remote st.db st.ctr).2.2
        m hm hselnd hmf).1 kid hk
      exact ⟨pushed_note now m (some kid),
        by
          show db_get (set_setting _ _ _) m.id = _
          rw [db_get_set_setting]
          exact hrec,
        rfl, rfl⟩
    | none =>
      obtain ⟨j, _, hrec⟩ := (push_loop_sel_db failing now
        (push_select (pull_from_keep now st.remote st.db st.ctr).2.1)
        ⟨0, 0, 0, 0⟩ (pull_from_keep now st.remote st.db st.ctr).2.1 st.remote
        (pull_from_keep now st.remote st.db st.ctr).2.2
        m hm hselnd hmf).2 hk
      exact ⟨pushed_note now m (some (uuidOf j)),
        by
          show db_get (set_setting _ _ _) m.id = _
          rw [db_get_set_setting]
          exact hrec,
        rfl, rfl⟩

/-- C5 witness: the amended per-note failure isolation at a concrete cycle
with one failing and one succeeding note. -/
theorem push_error_isolated_witness :
    db_get (sync c5w_st ["F5"] false 9).2.db "F5" =
      db_get (pull_from_keep 9 c5w_st.remote c5w_st.db c5w_st.ctr).2.1 "F5" ∧
    (⟨9, "push", "F5", "error", "provider error"⟩ : SyncLogEntry) ∈
      (sync c5w_st ["F5"] false 9).2.db.sync_log ∧
    (push_to_keep ["F5"] 9 (pull_from_keep 9 c5w_st.remote c5w_st.db
        c5w_st.ctr).2.1 c5w_st.remote
        (pull_from_keep 9 c5w_st.remote c5w_st.db c5w_st.ctr).2.2).1.errors =
      (push_select (pull_from_keep 9 c5w_st.remote c5w_st.db
        c5w_st.ctr).2.1).countP (fun m => (["F5"] : List String).contains m.id) ∧
    (sync c5w_st ["F5"] false 9).1.success = true ∧
    (∃ p q, (sync c5w_st ["F5"] false 9).1.stats = some ⟨p, q, 0, 0⟩) ∧
    (∀ m ∈ push_select (pull_from_keep 9 c5w_st.remote c5w_st.db c5w_st.ctr).2.1,
      (["F5"] : List String).contains m.id = false →
      ∃ rec, db_get (sync c5w_st ["F5"] false 9).2.db m.id = some rec ∧
        rec.sync_status = SyncStatus.synced ∧
        rec.remote_modified = some 9) := by
  have h := push_error_isolated c5w_st ["F5"] 9 c5w_fail (by rfl) (by rfl)
    (by decide) (by decide) (by decide)
  exact h

/-! ## Pull phase machinery -/

theorem fresh_items_ctr : ∀ (l : List (String × Bool)) (c : Nat),
    c ≤ (fresh_items c l).2 := by
  intro l
  induction l with
  | nil => intro c; exact Nat.le_refl c
  | cons p rest ih =>
    intro c
    cases p with
    | mk t ch => exact Nat.le_trans (Nat.le_succ c) (ih (c + 1))

theorem keep_note_to_local_spec (kn : KeepNote) (ex : Option Note) (now c : Nat) :
    (keep_note_to_local kn ex now c).1.keep_id = some kn.id ∧
    (keep_note_to_local kn ex now c).1.remote_modified = some kn.updated ∧
    (keep_note_to_local kn ex now c).1.id =
      (match ex with | some e => e.id | none => uuidOf c) ∧
    (match ex with | some _ => c | none => c + 1) ≤
      (keep_note_to_local kn ex now c).2 := by
  unfold keep_note_to_local
  cases ex with
  | some e =>
    dsimp only
    by_cases h : kn.items.isEmpty = true
    · rw [if_pos h]
      exact ⟨rfl, rfl, rfl, Nat.le_refl c⟩
    · rw [if_neg h]
      exact ⟨rfl, rfl, rfl, fresh_items_ctr kn.items c⟩
  | none =>
    dsimp only
    by_cases h : kn.items.isEmpty = true
    · rw [if_pos h]
      exact ⟨rfl, rfl, rfl, Nat.le_refl (c + 1)⟩
    · rw [if_neg h]
      exact ⟨rfl, rfl, rfl, fresh_items_ctr kn.items (c + 1)⟩

theorem pull_loop_cons_update (now : Nat) (kn : KeepNote) (rest : List KeepNote)
    (s : PullStats) (db : Db) (c : Nat) (local_note : Note)
    (hfind : find_by_keep_id db kn.id = some local_note)
    (hnewer : local_note.remote_modified.getD 0 < kn.updated) :
    pull_loop now (kn :: rest) s db c =
      pull_loop now rest { s with updated := s.updated + 1 }
        (save_note now
          { (keep_note_to_local kn (some local_note) now c).1 with
            sync_status := SyncStatus.synced } db).2
        (keep_note_to_local kn (some local_note) now c).2 := by
  simp only [pull_loop, hfind, if_pos hnewer]

theorem pull_loop_cons_skip (now : Nat) (kn : KeepNote) (rest : List KeepNote)
    (s : PullStats) (db : Db) (c : Nat) (local_note : Note)
    (hfind : find_by_keep_id db kn.id = some local_note)
    (hnotnewer : ¬(local_note.remote_modified.getD 0 < kn.updated)) :
    pull_loop now (kn :: rest) s db c =
      pull_loop now rest { s with skipped := s.skipped + 1 } db c := by
  simp only [pull_loop, hfind, if_neg hnotnewer]

theorem pull_loop_cons_new (now : Nat) (kn : KeepNote) (rest : List KeepNote)
    (s : PullStats) (db : Db) (c : Nat)
    (hfind : find_by_keep_id db kn.id = none) :
    pull_loop now (kn :: rest) s db c =
      pull_loop now rest { s with new := s.new + 1 }
        (save_note now
          { (keep_note_to_local kn none now c).1 with
            sync_status := SyncStatus.synced } db).2
        (keep_note_to_local kn none now c).2 := by
  simp only [pull_loop, hfind]

theorem mem_upsert_self (X : Note) (l : List Note) : X ∈ upsert_note X l := by
  unfold upsert_note
  by_cases hany : l.any (fun m => m.id == X.id) = true
  · rw [if_pos hany]
    obtain ⟨m, hm, hb⟩ := List.any_eq_true.mp hany
    have hmem := List.mem_map_of_mem (fun m => if m.id == X.id then X else m) hm
    dsimp only at hmem
    rw [if_pos hb] at hmem
    exact hmem
  · rw [if_neg hany]
    exact List.mem_append_right l (List.mem_singleton.mpr rfl)

theorem mem_upsert_of_ne (X n : Note) (l : List Note) (hn : n ∈ l)
    (hne : n.id ≠ X.id) : n ∈ upsert_note X l := by
  unfold upsert_note
  by_cases hany : l.any (fun m => m.id == X.id) = true
  · rw [if_pos hany]
    have hmem := List.mem_map_of_mem (fun m => if m.id == X.id then X else m) hn
    dsimp only at hmem
    rw [if_neg (by simpa using hne : ¬((n.id == X.id) = true))] at hmem
    exact hmem
  · rw [if_neg hany]
    exact List.mem_append_left _ hn

theorem mem_upsert_elim (X n' : Note) (l : List Note)
    (h : n' ∈ upsert_note X l) : n' = X ∨ (n' ∈ l ∧ n'.id ≠ X.id) := by
  unfold upsert_note at h
  by_cases hany : l.any (fun m => m.id == X.id) = true
  · rw [if_pos hany] at h
    obtain ⟨m, hm, heq⟩ := List.mem_map.mp h
    by_cases hc : (m.id == X.id) = true
    · rw [if_pos hc] at heq
      exact Or.inl heq.symm
    · rw [if_neg hc] at heq
      subst heq
      exact Or.inr ⟨hm, by simpa using hc⟩
  · rw [if_neg hany] at h
    rcases List.mem_append.mp h with h1 | h2
    · refine Or.inr ⟨h1, ?_⟩
      intro hc
      exact hany (List.any_eq_true.mpr ⟨n', h1, by simpa using hc⟩)
    · exact Or.inl (List.mem_singleton.mp h2)

theorem ids_upsert_replace (X : Note) (l : List Note)
    (hany : l.any (fun m => m.id == X.id) = true) :
    (upsert_note X l).map Note.id = l.map Note.id := by
  unfold upsert_note
  rw [if_pos hany, List.map_map]
  refine List.map_congr_left ?_
  intro m _
  by_cases hc : (m.id == X.id) = true
  · have hmx : m.id = X.id := by simpa using hc
    show (if (m.id == X.id) = true then X else m).id = m.id
    rw [if_pos hc, hmx]
  · show (if (m.id == X.id) = true then X else m).id = m.id
    rw [if_neg hc]

theorem links_nodup_replace (X : Note) : ∀ (l : List Note),
    (l.map Note.id).Nodup → (l.filterMap Note.keep_id).Nodup →
    (∀ v, X.keep_id = some v → v ∉ l.filterMap Note.keep_id ∨
      ∃ m ∈ l, m.id = X.id ∧ m.keep_id = some v) →
    ((l.map (fun m => if m.id == X.id then X else m)).filterMap
      Note.keep_id).Nodup := by
  intro l
  induction l with
  | nil => intro _ _ _; simp
  | cons h t ih =>
    intro hids hl hX
    rw [List.map_cons, List.nodup_cons] at hids
    rw [List.map_cons]
    by_cases hh : (h.id == X.id) = true
    · rw [if_pos hh]
      have hhid : h.id = X.id := by simpa using hh
      have htids : ∀ m ∈ t, m.id ≠ X.id := by
        intro m hm hc
        exact hids.1 (by rw [hhid, ← hc]; exact List.mem_map_of_mem Note.id hm)
      have hmap : t.map (fun m => if m.id == X.id then X else m) = t :=
        map_if_id_self X.id (fun _ => X) t htids
      rw [hmap]
      have htl : (t.filterMap Note.keep_id).Nodup := by
        cases hhk : h.keep_id with
        | none => rw [List.filterMap_cons_none hhk] at hl; exact hl
        | some w =>
          rw [List.filterMap_cons_some hhk] at hl
          exact (List.nodup_cons.mp hl).2
      cases hXk : X.keep_id with
      | none =>
        rw [List.filterMap_cons_none hXk]
        exact htl
      | some v =>
        rw [List.filterMap_cons_some hXk, List.nodup_cons]
        refine ⟨?_, htl⟩
        intro hcon
        rcases hX v hXk with hnot | ⟨m, hm, hmid, hmk⟩
        · obtain ⟨a, ha, hak⟩ := List.mem_filterMap.mp hcon
          exact hnot (List.mem_filterMap.mpr ⟨a, List.mem_cons_of_mem h ha, hak⟩)
        · rcases List.mem_cons.mp hm with rfl | hmt
          · rw [List.filterMap_cons_some hmk] at hl
            exact (List.nodup_cons.mp hl).1 hcon
          · exact htids m hmt hmid
    · rw [if_neg hh]
      have hhid : h.id ≠ X.id := by simpa using hh
      cases hhk : h.keep_id with
      | none =>
        rw [List.filterMap_cons_none hhk]
        rw [List.filterMap_cons_none hhk] at hl
        refine ih hids.2 hl ?_
        intro v hv
        rcases hX v hv with hnot | ⟨m, hm, hmid, hmk⟩
        · exact Or.inl (by rw [← List.filterMap_cons_none hhk]; exact hnot)
        · rcases List.mem_cons.mp hm with rfl | hmt
          · exact absurd hmid hhid
          · exact Or.inr ⟨m, hmt, hmid, hmk⟩
      | some w =>
        rw [List.filterMap_cons_some hhk]
        rw [List.filterMap_cons_some hhk] at hl
        obtain ⟨hw, htl⟩ := List.nodup_cons.mp hl
        rw [List.nodup_cons]
        constructor
        · intro hcon
          obtain ⟨m', hm', hm'k⟩ := List.mem_filterMap.mp hcon
          obtain ⟨m0, hm0, heqm⟩ := List.mem_map.mp hm'
          by_cases hc : (m0.id == X.id) = true
          · rw [if_pos hc] at heqm
            rw [← heqm] at hm'k
            rcases hX w hm'k with hnot | ⟨m1, hm1, hm1id, hm1k⟩
            · exact hnot (List.mem_filterMap.mpr ⟨h, List.mem_cons_self h t, hhk⟩)
            · rcases List.mem_cons.mp hm1 with rfl | hm1t
              · exact hhid hm1id
              · exact hw (List.mem_filterMap.mpr ⟨m1, hm1t, hm1k⟩)
          · rw [if_neg hc] at heqm
            rw [← heqm] at hm'k
            exact hw (List.mem_filterMap.mpr ⟨m0, hm0, hm'k⟩)
        · refine ih hids.2 htl ?_
          intro v hv
          rcases hX v hv with hnot | ⟨m, hm, hmid, hmk⟩
          · refine Or.inl ?_
            intro hcon
            exact hnot (List.mem_filterMap.mpr
              (by
                obtain ⟨a, ha, hak⟩ := List.mem_filterMap.mp hcon
                exact ⟨a, List.mem_cons_of_mem h ha, hak⟩))
          · rcases List.mem_cons.mp hm with rfl | hmt
            · exact absurd hmid hhid
            · exact Or.inr ⟨m, hmt, hmid, hmk⟩

theorem links_nodup_upsert (X : Note) (l : List Note)
    (hids : (l.map Note.id).Nodup)
    (hl : (l.filterMap Note.keep_id).Nodup)
    (hX : ∀ v, X.keep_id = some v → v ∉ l.filterMap Note.keep_id ∨
      ∃ m ∈ l, m.id = X.id ∧ m.keep_id = some v) :
    ((upsert_note X l).filterMap Note.keep_id).Nodup := by
  unfold upsert_note
  by_cases hany : l.any (fun m => m.id == X.id) = true
  · rw [if_pos hany]
    exact links_nodup_replace X l hids hl hX
  · rw [if_neg hany, List.filterMap_append]
    cases hXk : X.keep_id with
    | none =>
      have : List.filterMap Note.keep_id [X] = [] := by
        simp [List.filterMap, hXk]
      rw [this, List.append_nil]
      exact hl
    | some v =>
      have : List.filterMap Note.keep_id [X] = [v] := by
        simp [List.filterMap, hXk]
      rw [this, List.nodup_append]
      refine ⟨hl, List.nodup_singleton v, ?_⟩
      intro a ha hb
      rw [List.mem_singleton.mp hb] at ha
      rcases hX v hXk with hnot | ⟨m, hm, hmid, _⟩
      · exact hnot ha
      · exact hany (List.any_eq_true.mpr ⟨m, hm, by simp [hmid]⟩)

theorem pull_loop_main (now : Nat) : ∀ (rems : List KeepNote) (s : PullStats)
    (db : Db) (c : Nat),
    ids_nodup db → links_nodup db → (rems.map KeepNote.id).Nodup →
    db_fresh db c → rem_fresh rems c →
    ids_nodup (pull_loop now rems s db c).2.1 ∧
    links_nodup (pull_loop now rems s db c).2.1 ∧
    c ≤ (pull_loop now rems s db c).2.2 ∧
    db_fresh (pull_loop now rems s db c).2.1 (pull_loop now rems s db c).2.2 ∧
    (∀ kn ∈ rems, ∃ n ∈ (pull_loop now rems s db c).2.1.notes,
      n.keep_id = some kn.id ∧ kn.updated ≤ n.remote_modified.getD 0) ∧
    (∀ n ∈ db.notes, ∀ kid, n.keep_id = some kid →
      (∀ kn ∈ rems, kn.id ≠ kid) →
      n ∈ (pull_loop now rems s db c).2.1.notes) := by
  intro rems
  induction rems with
  | nil =>
    intro s db c hids hlinks _ hdbf _
    exact ⟨hids, hlinks, Nat.le_refl c, hdbf,
      fun kn hkn => absurd hkn (List.not_mem_nil kn),
      fun n hn _ _ _ => hn⟩
  | cons kn rest ih =>
    intro s db c hids hlinks hrnd hdbf hremf
    rw [List.map_cons, List.nodup_cons] at hrnd
    obtain ⟨hknid, hrestnd⟩ := hrnd
    have hremf' : rem_fresh rest c :=
      fun k hk kn' hkn' => hremf k hk kn' (List.mem_cons_of_mem kn hkn')
    have hknfresh : ∀ k, c ≤ k → kn.id ≠ uuidOf k :=
      fun k hk => hremf k hk kn (List.mem_cons_self kn rest)
    have hrestne : ∀ kn' ∈ rest, kn'.id ≠ kn.id := by
      intro kn' hkn' hc
      exact hknid (hc ▸ List.mem_map_of_mem KeepNote.id hkn')
    cases hfind : find_by_keep_id db kn.id with
    | some local_note =>
      have hlocmem : local_note ∈ db.notes := List.mem_of_find?_eq_some hfind
      have hlock : local_note.keep_id = some kn.id := by
        have h := List.find?_some hfind
        simpa using h
      by_cases hnewer : local_note.remote_modified.getD 0 < kn.updated
      · rw [pull_loop_cons_update now kn rest s db c local_note hfind hnewer]
        obtain ⟨hkid, hrm, hid, hc2⟩ :=
          keep_note_to_local_spec kn (some local_note) now c
        -- the record actually stored by `save_note`
        have hXSid : (Note.update_hash
            { { (keep_note_to_local kn (some local_note) now c).1 with
                sync_status := SyncStatus.synced } with
              updated_at := now }).id = local_note.id := hid
        have hXSkid : (Note.update_hash
            { { (keep_note_to_local kn (some local_note) now c).1 with
                sync_status := SyncStatus.synced } with
              updated_at := now }).keep_id = some kn.id := hkid
        have hXSrm : (Note.update_hash
            { { (keep_note_to_local kn (some local_note) now c).1 with
                sync_status := SyncStatus.synced } with
              updated_at := now }).remote_modified = some kn.updated := hrm
        have hany : db.notes.any (fun m => m.id == (Note.update_hash
            { { (keep_note_to_local kn (some local_note) now c).1 with
                sync_status := SyncStatus.synced } with
              updated_at := now }).id) = true := by
          refine List.any_eq_true.mpr ⟨local_note, hlocmem, ?_⟩
          rw [hXSid]
          exact beq_self_eq_true local_note.id
        have hids' : ids_nodup (save_note now
            { (keep_note_to_local kn (some local_note) now c).1 with
              sync_status := SyncStatus.synced } db).2 := by
          show ((upsert_note _ db.notes).map Note.id).Nodup
          rw [ids_upsert_replace _ db.notes hany]
          exact hids
        have hlinks' : links_nodup (save_note now
            { (keep_note_to_local kn (some local_note) now c).1 with
              sync_status := SyncStatus.synced } db).2 := by
          show ((upsert_note _ db.notes).filterMap Note.keep_id).Nodup
          refine links_nodup_upsert _ db.notes hids hlinks ?_
          intro v hv
          rw [hXSkid] at hv
          injection hv with hv
          subst hv
          exact Or.inr ⟨local_note, hlocmem, hXSid.symm, hlock⟩
        have hdbf' : db_fresh (save_note now
            { (keep_note_to_local kn (some local_note) now c).1 with
              sync_status := SyncStatus.synced } db).2
            (keep_note_to_local kn (some local_note) now c).2 := by
          intro k hk n hn
          rcases mem_upsert_elim _ n db.notes hn with rfl | ⟨hn', _⟩
          · constructor
            · rw [hXSid]
              exact (hdbf k (Nat.le_trans hc2 hk) local_note hlocmem).1
            · rw [hXSkid]
              intro hcon
              injection hcon with hcon
              exact hknfresh k (Nat.le_trans hc2 hk) hcon
          · exact hdbf k (Nat.le_trans hc2 hk) n hn'
        obtain ⟨ihids, ihlinks, ihctr, ihdbf, ihready, ihframe⟩ :=
          ih { s with updated := s.updated + 1 }
            (save_note now
              { (keep_note_to_local kn (some local_note) now c).1 with
                sync_status := SyncStatus.synced } db).2
            (keep_note_to_local kn (some local_note) now c).2
            hids' hlinks' hrestnd hdbf'
            (fun k hk kn' hkn' => hremf' k (Nat.le_trans hc2 hk) kn' hkn')
        refine ⟨ihids, ihlinks, Nat.le_trans hc2 ihctr, ihdbf, ?_, ?_⟩
        · intro kn' hkn'
          rcases List.mem_cons.mp hkn' with rfl | hkr
          · refine ⟨Note.update_hash
              { { (keep_note_to_local kn' (some local_note) now c).1 with
                  sync_status := SyncStatus.synced } with
                updated_at := now }, ?_, hXSkid, ?_⟩
            · exact ihframe _ (mem_upsert_self _ db.notes) kn'.id hXSkid hrestne
            · rw [hXSrm]
              exact Nat.le_refl kn'.updated
          · exact ihready kn' hkr
        · intro n hn kid hnk hne
          have hnid : n.id ≠ (Note.update_hash
              { { (keep_note_to_local kn (some local_note) now c).1 with
                  sync_status := SyncStatus.synced } with
                updated_at := now }).id := by
            rw [hXSid]
            intro hc
            have heq := eq_of_mem_of_ids_nodup db.notes hids n hn local_note
              hlocmem hc
            rw [heq, hlock] at hnk
            injection hnk with hnk
            exact hne kn (List.mem_cons_self kn rest) hnk
          exact ihframe n (mem_upsert_of_ne _ n db.notes hn hnid) kid hnk
            (fun kn' hkn' => hne kn' (List.mem_cons_of_mem kn hkn'))
      · rw [pull_loop_cons_skip now kn rest s db c local_note hfind hnewer]
        obtain ⟨ihids, ihlinks, ihctr, ihdbf, ihready, ihframe⟩ :=
          ih { s with skipped := s.skipped + 1 } db c hids hlinks hrestnd hdbf
            hremf'
        refine ⟨ihids, ihlinks, ihctr, ihdbf, ?_, ?_⟩
        · intro kn' hkn'
          rcases List.mem_cons.mp hkn' with rfl | hkr
          · exact ⟨local_note, ihframe local_note hlocmem kn'.id hlock hrestne,
              hlock, Nat.le_of_not_lt hnewer⟩
          · exact ihready kn' hkr
        · intro n hn kid hnk hne
          exact ihframe n hn kid hnk
            (fun kn' hkn' => hne kn' (List.mem_cons_of_mem kn hkn'))
    | none =>
      rw [pull_loop_cons_new now kn rest s db c hfind]
      obtain ⟨hkid, hrm, hid, hc2⟩ := keep_note_to_local_spec kn none now c
      have hc2' : c + 1 ≤ (keep_note_to_local kn none now c).2 := hc2
      have hXSid : (Note.update_hash
          { { (keep_note_to_local kn none now c).1 with
              sync_status := SyncStatus.synced } with
            updated_at := now }).id = uuidOf c := hid
      have hXSkid : (Note.update_hash
          { { (keep_note_to_local kn none now c).1 with
              sync_status := SyncStatus.synced } with
            updated_at := now }).keep_id = some kn.id := hkid
      have hXSrm : (Note.update_hash
          { { (keep_note_to_local kn none now c).1 with
              sync_status := SyncStatus.synced } with
            updated_at := now }).remote_modified = some kn.updated := hrm
      have hnotin : ∀ m ∈ db.notes, m.id ≠ (Note.update_hash
          { { (keep_note_to_local kn none now c).1 with
              sync_status := SyncStatus.synced } with
            updated_at := now }).id := by
        intro m hm
        rw [hXSid]
        exact (hdbf c (Nat.le_refl c) m hm).1
      have hups : upsert_note (Note.update_hash
          { { (keep_note_to_local kn none now c).1 with
              sync_status := SyncStatus.synced } with
            updated_at := now }) db.notes =
          db.notes ++ [Note.update_hash
          { { (keep_note_to_local kn none now c).1 with
              sync_status := SyncStatus.synced } with
            updated_at := now }] :=
        upsert_eq_append _ db.notes hnotin
      have hknnotlinked : kn.id ∉ db.notes.filterMap Note.keep_id := by
        intro hcon
        obtain ⟨a, ha, hak⟩ := List.mem_filterMap.mp hcon
        have := List.find?_eq_none.mp hfind a ha
        exact this (by simp [hak])
      have hids' : ids_nodup (save_note now
          { (keep_note_to_local kn none now c).1 with
            sync_status := SyncStatus.synced } db).2 := by
        show ((upsert_note _ db.notes).map Note.id).Nodup
        rw [hups, List.map_append]
        rw [List.nodup_append]
        refine ⟨hids, List.nodup_singleton _, ?_⟩
        intro a ha hb
        rw [List.mem_singleton.mp hb] at ha
        obtain ⟨m, hm, hmid⟩ := List.mem_map.mp ha
        exact hnotin m hm hmid
      have hlinks' : links_nodup (save_note now
          { (keep_note_to_local kn none now c).1 with
            sync_status := SyncStatus.synced } db).2 := by
        show ((upsert_note _ db.notes).filterMap Note.keep_id).Nodup
        refine links_nodup_upsert _ db.notes hids hlinks ?_
        intro v hv
        rw [hXSkid] at hv
        injection hv with hv
        subst hv
        exact Or.inl hknnotlinked
      have hdbf' : db_fresh (save_note now
          { (keep_note_to_local kn none now c).1 with
            sync_status := SyncStatus.synced } db).2
          (keep_note_to_local kn none now c).2 := by
        intro k hk n hn
        rcases mem_upsert_elim _ n db.notes hn with rfl | ⟨hn', _⟩
        · constructor
          · rw [hXSid]
            intro hcon
            have := uuidOf_inj hcon
            omega
          · rw [hXSkid]
            intro hcon
            injection hcon with hcon
            exact hknfresh k (Nat.le_trans (Nat.le_of_succ_le hc2) hk) hcon
        · exact hdbf k (Nat.le_trans (Nat.le_of_succ_le hc2) hk) n hn'
      obtain ⟨ihids, ihlinks, ihctr, ihdbf, ihready, ihframe⟩ :=
        ih { s with new := s.new + 1 }
          (save_note now
            { (keep_note_to_local kn none now c).1 with
              sync_status := SyncStatus.synced } db).2
          (keep_note_to_local kn none now c).2
          hids' hlinks' hrestnd hdbf'
          (fun k hk kn' hkn' =>
            hremf' k (Nat.le_trans (Nat.le_of_succ_le hc2) hk) kn' hkn')
      refine ⟨ihids, ihlinks,
        Nat.le_trans (Nat.le_of_succ_le hc2) ihctr, ihdbf, ?_, ?_⟩
      · intro kn' hkn'
        rcases List.mem_cons.mp hkn' with rfl | hkr
        · refine ⟨Note.update_hash
            { { (keep_note_to_local kn' none now c).1 with
                sync_status := SyncStatus.synced } with
              updated_at := now }, ?_, hXSkid, ?_⟩
          · exact ihframe _ (mem_upsert_self _ db.notes) kn'.id hXSkid hrestne
          · rw [hXSrm]
            exact Nat.le_refl kn'.updated
        · exact ihready kn' hkr
      · intro n hn kid hnk hne
        exact ihframe n (mem_upsert_of_ne _ n db.notes hn (hnotin n hn)) kid
          hnk (fun kn' hkn' => hne kn' (List.mem_cons_of_mem kn hkn'))

theorem push_loop_RQ (now : Nat) : ∀ (sel : List Note) (s : PushStats)
    (db : Db) (rem : List KeepNote) (c : Nat),
    (∀ m ∈ sel, m ∈ db.notes ∧ push_pred m = true) →
    (sel.map Note.id).Nodup →
    (∀ n ∈ db.notes, push_pred n = true → ∃ m ∈ sel, m.id = n.id) →
    ids_nodup db → links_nodup db →
    (rem.map KeepNote.id).Nodup →
    db_fresh db c → rem_fresh rem c →
    (∀ kn ∈ rem, ∃ n ∈ db.notes, n.keep_id = some kn.id ∧
      (kn.updated ≤ n.remote_modified.getD 0 ∨ ∃ m ∈ sel, m.id = n.id)) →
    (∀ kn ∈ (push_loop [] now sel s db rem c).2.2.1,
      ∃ n ∈ (push_loop [] now sel s db rem c).2.1.notes,
        n.keep_id = some kn.id ∧ kn.updated ≤ n.remote_modified.getD 0) ∧
    (∀ n ∈ (push_loop [] now sel s db rem c).2.1.notes, push_pred n = false) ∧
    links_nodup (push_loop [] now sel s db rem c).2.1 := by
  intro sel
  induction sel with
  | nil =>
    intro s db rem c _ _ hQ hids hlinks _ _ _ hR
    refine ⟨?_, ?_, hlinks⟩
    · intro kn hkn
      obtain ⟨n, hn, hnk, hdisj⟩ := hR kn hkn
      rcases hdisj with h | ⟨m, hm, _⟩
      · exact ⟨n, hn, hnk, h⟩
      · exact absurd hm (List.not_mem_nil m)
    · intro n hn
      cases hp : push_pred n with
      | false => rfl
      | true =>
        obtain ⟨m, hm, _⟩ := hQ n hn hp
        exact absurd hm (List.not_mem_nil m)
  | cons m rest ih =>
    intro s db rem c hsel hselnd hQ hids hlinks hremnd hdbf hremf hR
    rw [List.map_cons, List.nodup_cons] at hselnd
    obtain ⟨hmid, hrestnd⟩ := hselnd
    obtain ⟨hmdb, hmpred⟩ := hsel m (List.mem_cons_self m rest)
    have hrestne : ∀ p ∈ rest, p.id ≠ m.id := by
      intro p hp hc
      exact hmid (hc ▸ List.mem_map_of_mem Note.id hp)
    have hnf : ([] : List String).contains m.id = false := rfl
    have hsel' : ∀ p ∈ rest, p ∈ db.notes ∧ push_pred p = true :=
      fun p hp => hsel p (List.mem_cons_of_mem m hp)
    cases hk : m.keep_id with
    | some kid =>
      -- the record written for m (same in both get-branches)
      have hXid : (Note.update_hash { { m with
          sync_status := SyncStatus.synced
          remote_modified := some now } with updated_at := now }).id = m.id := rfl
      have hXkid : (Note.update_hash { { m with
          sync_status := SyncStatus.synced
          remote_modified := some now } with updated_at := now }).keep_id =
          some kid := hk
      have hXrm : (Note.update_hash { { m with
          sync_status := SyncStatus.synced
          remote_modified := some now } with updated_at := now }).remote_modified =
          some now := rfl
      have hXpred : push_pred (Note.update_hash { { m with
          sync_status := SyncStatus.synced
          remote_modified := some now } with updated_at := now }) = false := rfl
      have hany : db.notes.any (fun p => p.id == (Note.update_hash { { m with
          sync_status := SyncStatus.synced
          remote_modified := some now } with updated_at := now }).id) = true :=
        List.any_eq_true.mpr ⟨m, hmdb, beq_self_eq_true m.id⟩
      have hids' : ids_nodup (save_note now { m with
          sync_status := SyncStatus.synced
          remote_modified := some now } db).2 := by
        show ((upsert_note _ db.notes).map Note.id).Nodup
        rw [ids_upsert_replace _ db.notes hany]
        exact hids
      have hlinks' : links_nodup (save_note now { m with
          sync_status := SyncStatus.synced
          remote_modified := some now } db).2 := by
        show ((upsert_note _ db.notes).filterMap Note.keep_id).Nodup
        refine links_nodup_upsert _ db.notes hids hlinks ?_
        intro v hv
        rw [hXkid] at hv
        injection hv with hv
        subst hv
        exact Or.inr ⟨m, hmdb, rfl, hk⟩
      have hdbf' : db_fresh (save_note now { m with
          sync_status := SyncStatus.synced
          remote_modified := some now } db).2 c := by
        intro k hkk n hn
        rcases mem_upsert_elim _ n db.notes hn with rfl | ⟨hn', _⟩
        · exact ⟨(hdbf k hkk m hmdb).1, hk ▸ (hdbf k hkk m hmdb).2⟩
        · exact hdbf k hkk n hn'
      have hsel2 : ∀ p ∈ rest, p ∈ (save_note now { m with
          sync_status := SyncStatus.synced
          remote_modified := some now } db).2.notes ∧ push_pred p = true := by
        intro p hp
        exact ⟨mem_upsert_of_ne _ p db.notes (hsel' p hp).1 (hrestne p hp),
          (hsel' p hp).2⟩
      have hQ2 : ∀ n ∈ (save_note now { m with
          sync_status := SyncStatus.synced
          remote_modified := some now } db).2.notes, push_pred n = true →
          ∃ p ∈ rest, p.id = n.id := by
        intro n hn hp
        rcases mem_upsert_elim _ n db.notes hn with rfl | ⟨hn', hne⟩
        · rw [hXpred] at hp
          cases hp
        · obtain ⟨p, hpm, hpid⟩ := hQ n hn' hp
          rcases List.mem_cons.mp hpm with rfl | hpr
          · exact absurd hpid.symm hne
          · exact ⟨p, hpr, hpid⟩
      cases hg : rem_get rem kid with
      | some kn0 =>
        rw [push_loop_cons_upd [] now m rest s db rem c kid kn0 hnf hk hg]
        have hremnd' : ((rem.map (fun p =>
            if p.id == kid then update_keep_note p m now else p)).map
            KeepNote.id).Nodup := by
          rw [List.map_map]
          have : rem.map (KeepNote.id ∘ fun p =>
              if p.id == kid then update_keep_note p m now else p) =
              rem.map KeepNote.id := by
            refine List.map_congr_left ?_
            intro p _
            show (if (p.id == kid) = true then update_keep_note p m now else p).id
              = p.id
            by_cases hc : (p.id == kid) = true
            · rw [if_pos hc]
              rfl
            · rw [if_neg hc]
          rw [this]
          exact hremnd
        have hremf' : rem_fresh (rem.map (fun p =>
            if p.id == kid then update_keep_note p m now else p)) c := by
          intro k hkk kn' hkn'
          obtain ⟨kn1, hkn1, hkid1⟩ := mem_map_update_id rem kid
            (fun p => update_keep_note p m now) (fun p => rfl) kn' hkn'
          rw [hkid1]
          exact hremf k hkk kn1 hkn1
        have hR2 : ∀ kn' ∈ rem.map (fun p =>
            if p.id == kid then update_keep_note p m now else p),
            ∃ n ∈ (save_note now { m with
              sync_status := SyncStatus.synced
              remote_modified := some now } db).2.notes,
            n.keep_id = some kn'.id ∧
            (kn'.updated ≤ n.remote_modified.getD 0 ∨
              ∃ p ∈ rest, p.id = n.id) := by
          intro kn' hkn'
          obtain ⟨kn1, hkn1, heq⟩ := List.mem_map.mp hkn'
          by_cases hc : (kn1.id == kid) = true
          · rw [if_pos hc] at heq
            have hkn1id : kn1.id = kid := by simpa using hc
            refine ⟨Note.update_hash { { m with
              sync_status := SyncStatus.synced
              remote_modified := some now } with updated_at := now },
              mem_upsert_self _ db.notes, ?_, Or.inl ?_⟩
            · rw [hXkid, ← heq]
              show some kid = some (update_keep_note kn1 m now).id
              rw [show (update_keep_note kn1 m now).id = kn1.id from rfl, hkn1id]
            · rw [← heq]
              show (update_keep_note kn1 m now).updated ≤ _
              rw [show (update_keep_note kn1 m now).updated = now from rfl, hXrm]
              exact Nat.le_refl now
          · rw [if_neg hc] at heq
            subst heq
            obtain ⟨n0, hn0, hn0k, hdisj⟩ := hR kn1 hkn1
            have hn0ne : n0.id ≠ m.id := by
              intro hcon
              have := eq_of_mem_of_ids_nodup db.notes hids n0 hn0 m hmdb hcon
              rw [this, hk] at hn0k
              injection hn0k with hn0k
              exact hc (by rw [← hn0k]; exact beq_self_eq_true kid)
            refine ⟨n0, mem_upsert_of_ne _ n0 db.notes hn0 hn0ne, hn0k, ?_⟩
            rcases hdisj with h | ⟨p, hpm, hpid⟩
            · exact Or.inl h
            · rcases List.mem_cons.mp hpm with rfl | hpr
              · exact absurd hpid.symm hn0ne
              · exact Or.inr ⟨p, hpr, hpid⟩
        exact ih { s with updated := s.updated + 1 } _ _ c hsel2 hrestnd hQ2
          hids' hlinks' hremnd' hdbf' hremf' hR2
      | none =>
        rw [push_loop_cons_noget [] now m rest s db rem c kid hnf hk hg]
        have hR2 : ∀ kn' ∈ rem,
            ∃ n ∈ (save_note now { m with
              sync_status := SyncStatus.synced
              remote_modified := some now } db).2.notes,
            n.keep_id = some kn'.id ∧
            (kn'.updated ≤ n.remote_modified.getD 0 ∨
              ∃ p ∈ rest, p.id = n.id) := by
          intro kn' hkn'
          obtain ⟨n0, hn0, hn0k, hdisj⟩ := hR kn' hkn'
          have hkn'ne : kn'.id ≠ kid := by
            intro hcon
            have := List.find?_eq_none.mp hg kn' hkn'
            exact this (by simp [hcon])
          have hn0ne : n0.id ≠ m.id := by
            intro hcon
            have := eq_of_mem_of_ids_nodup db.notes hids n0 hn0 m hmdb hcon
            rw [this, hk] at hn0k
            injection hn0k with hn0k
            exact hkn'ne hn0k.symm
          refine ⟨n0, mem_upsert_of_ne _ n0 db.notes hn0 hn0ne, hn0k, ?_⟩
          rcases hdisj with h | ⟨p, hpm, hpid⟩
          · exact Or.inl h
          · rcases List.mem_cons.mp hpm with rfl | hpr
            · exact absurd hpid.symm hn0ne
            · exact Or.inr ⟨p, hpr, hpid⟩
        exact ih s _ _ c hsel2 hrestnd hQ2 hids' hlinks' hremnd hdbf' hremf hR2
    | none =>
      rw [push_loop_cons_create [] now m rest s db rem c hnf hk]
      have hXid : (Note.update_hash { { m with
          keep_id := some (uuidOf c)
          sync_status := SyncStatus.synced
          remote_modified := some now } with updated_at := now }).id = m.id := rfl
      have hXkid : (Note.update_hash { { m with
          keep_id := some (uuidOf c)
          sync_status := SyncStatus.synced
          remote_modified := some now } with updated_at := now }).keep_id =
          some (uuidOf c) := rfl
      have hXpred : push_pred (Note.update_hash { { m with
          keep_id := some (uuidOf c)
          sync_status := SyncStatus.synced
          remote_modified := some now } with updated_at := now }) = false := rfl
      have hany : db.notes.any (fun p => p.id == (Note.update_hash { { m with
          keep_id := some (uuidOf c)
          sync_status := SyncStatus.synced
          remote_modified := some now } with updated_at := now }).id) = true :=
        List.any_eq_true.mpr ⟨m, hmdb, beq_self_eq_true m.id⟩
      have hids' : ids_nodup (save_note now { m with
          keep_id := some (uuidOf c)
          sync_status := SyncStatus.synced
          remote_modified := some now } db).2 := by
        show ((upsert_note _ db.notes).map Note.id).Nodup
        rw [ids_upsert_replace _ db.notes hany]
        exact hids
      have hlinks' : links_nodup (save_note now { m with
          keep_id := some (uuidOf c)
          sync_status := SyncStatus.synced
          remote_modified := some now } db).2 := by
        show ((upsert_note _ db.notes).filterMap Note.keep_id).Nodup
        refine links_nodup_upsert _ db.notes hids hlinks ?_
        intro v hv
        rw [hXkid] at hv
        injection hv with hv
        subst hv
        refine Or.inl ?_
        intro hcon
        obtain ⟨a, ha, hak⟩ := List.mem_filterMap.mp hcon
        exact (hdbf c (Nat.le_refl c) a ha).2 hak
      have hdbf' : db_fresh (save_note now { m with
          keep_id := some (uuidOf c)
          sync_status := SyncStatus.synced
          remote_modified := some now } db).2 (c + 1) := by
        intro k hkk n hn
        rcases mem_upsert_elim _ n db.notes hn with rfl | ⟨hn', _⟩
        · refine ⟨(hdbf k (by omega) m hmdb).1, ?_⟩
          rw [hXkid]
          intro hcon
          injection hcon with hcon
          have := uuidOf_inj hcon
          omega
        · exact hdbf k (by omega) n hn'
      have hremnd' : ((rem ++ [(create_keep_note m now c).1]).map
          KeepNote.id).Nodup := by
        rw [List.map_append, List.nodup_append]
        refine ⟨hremnd, List.nodup_singleton _, ?_⟩
        intro a ha hb
        rw [List.mem_singleton.mp hb] at ha
        obtain ⟨kn1, hkn1, hkid1⟩ := List.mem_map.mp ha
        exact hremf c (Nat.le_refl c) kn1 hkn1 hkid1
      have hremf' : rem_fresh (rem ++ [(create_keep_note m now c).1]) (c + 1) := by
        intro k hkk kn' hkn'
        rcases List.mem_append.mp hkn' with h1 | h2
        · exact hremf k (by omega) kn' h1
        · rw [List.mem_singleton.mp h2]
          show uuidOf c ≠ uuidOf k
          intro hcon
          have := uuidOf_inj hcon
          omega
      have hsel2 : ∀ p ∈ rest, p ∈ (save_note now { m with
          keep_id := some (uuidOf c)
          sync_status := SyncStatus.synced
          remote_modified := some now } db).2.notes ∧ push_pred p = true := by
        intro p hp
        exact ⟨mem_upsert_of_ne _ p db.notes (hsel' p hp).1 (hrestne p hp),
          (hsel' p hp).2⟩
      have hQ2 : ∀ n ∈ (save_note now { m with
          keep_id := some (uuidOf c)
          sync_status := SyncStatus.synced
          remote_modified := some now } db).2.notes, push_pred n = true →
          ∃ p ∈ rest, p.id = n.id := by
        intro n hn hp
        rcases mem_upsert_elim _ n db.notes hn with rfl | ⟨hn', hne⟩
        · rw [hXpred] at hp
          cases hp
        · obtain ⟨p, hpm, hpid⟩ := hQ n hn' hp
          rcases List.mem_cons.mp hpm with rfl | hpr
          · exact absurd hpid.symm hne
          · exact ⟨p, hpr, hpid⟩
      have hR2 : ∀ kn' ∈ rem ++ [(create_keep_note m now c).1],
          ∃ n ∈ (save_note now { m with
            keep_id := some (uuidOf c)
            sync_status := SyncStatus.synced
            remote_modified := some now } db).2.notes,
          n.keep_id = some kn'.id ∧
          (kn'.updated ≤ n.remote_modified.getD 0 ∨
            ∃ p ∈ rest, p.id = n.id) := by
        intro kn' hkn'
        rcases List.mem_append.mp hkn' with h1 | h2
        · obtain ⟨n0, hn0, hn0k, hdisj⟩ := hR kn' h1
          have hn0ne : n0.id ≠ m.id := by
            intro hcon
            have := eq_of_mem_of_ids_nodup db.notes hids n0 hn0 m hmdb hcon
            rw [this, hk] at hn0k
            cases hn0k
          refine ⟨n0, mem_upsert_of_ne _ n0 db.notes hn0 hn0ne, hn0k, ?_⟩
          rcases hdisj with h | ⟨p, hpm, hpid⟩
          · exact Or.inl h
          · rcases List.mem_cons.mp hpm with rfl | hpr
            · exact absurd hpid.symm hn0ne
            · exact Or.inr ⟨p, hpr, hpid⟩
        · rw [List.mem_singleton.mp h2]
          refine ⟨Note.update_hash { { m with
            keep_id := some (uuidOf c)
            sync_status := SyncStatus.synced
            remote_modified := some now } with updated_at := now },
            mem_upsert_self _ db.notes, hXkid, Or.inl ?_⟩
          exact Nat.le_refl now
      exact ih { s with created := s.created + 1 } _ _ (c + 1) hsel2 hrestnd
        hQ2 hids' hlinks' hremnd' hdbf' hremf' hR2

theorem find_by_keep_id_ready (db : Db) (kid : String) (link : Note)
    (hmem : link ∈ db.notes) (hlk : link.keep_id = some kid)
    (hlnd : links_nodup db) : find_by_keep_id db kid = some link := by
  cases h : find_by_keep_id db kid with
  | none =>
    exfalso
    have hnone := List.find?_eq_none.mp h link hmem
    exact hnone (by simp [hlk])
  | some n' =>
    have hn'mem : n' ∈ db.notes := List.mem_of_find?_eq_some h
    have hn'k : n'.keep_id = some kid := by
      have hp := List.find?_some h
      simpa using hp
    rw [eq_of_link_of_links_nodup db.notes hlnd n' hn'mem link hmem kid hn'k hlk]

theorem pull_loop_skip_all (now : Nat) : ∀ (rems : List KeepNote)
    (s : PullStats) (db : Db) (c : Nat),
    (∀ kn ∈ rems, ∃ n, find_by_keep_id db kn.id = some n ∧
      kn.updated ≤ n.remote_modified.getD 0) →
    pull_loop now rems s db c =
      ({ s with skipped := s.skipped + rems.length }, db, c) := by
  intro rems
  induction rems with
  | nil => intro s db c _; rfl
  | cons kn rest ih =>
    intro s db c h
    obtain ⟨n, hfind, hle⟩ := h kn (List.mem_cons_self kn rest)
    rw [pull_loop_cons_skip now kn rest s db c n hfind (Nat.not_lt.mpr hle),
      ih { s with skipped := s.skipped + 1 } db c
        (fun kn' hkn' => h kn' (List.mem_cons_of_mem kn hkn'))]
    have harith : s.skipped + 1 + rest.length = s.skipped + (rest.length + 1) := by
      omega
    rw [List.length_cons, harith]

theorem pull_from_keep_skip_all (now : Nat) (rems : List KeepNote) (db : Db)
    (c : Nat)
    (h : ∀ kn ∈ rems, ∃ n, find_by_keep_id db kn.id = some n ∧
      kn.updated ≤ n.remote_modified.getD 0) :
    pull_from_keep now rems db c = (⟨0, 0, rems.length⟩, db, c) := by
  have h0 := pull_loop_skip_all now rems ⟨0, 0, 0⟩ db c h
  simpa using h0

theorem push_to_keep_no_pending (failing : List String) (now : Nat) (db : Db)
    (rem : List KeepNote) (c : Nat)
    (h : ∀ n ∈ db.notes, push_pred n = false) :
    push_to_keep failing now db rem c = (⟨0, 0, 0, 0⟩, db, rem, c) := by
  unfold push_to_keep
  have hsel : push_select db = [] := by
    unfold push_select
    rw [List.filter_eq_nil_iff]
    intro a ha
    simp [h a ha]
  rw [hsel]
  rfl

/-- C3: running `sync` twice in a row — second call on exactly the state the
first one produced, with no independent local edit or remote change in
between, no provider failure, and a well-formed store (unique primary keys,
unique remote links, fresh uuid supply) — makes the second run report zero
pulled, zero pushed and zero conflicts (and zero errors): every remote note
is skipped on pull because its timestamp is not strictly newer than the
recorded `remote_modified`, and no note is `local_only`/`pending_push`
anymore, so the push selects nothing. -/
theorem sync_twice_second_run_reports_zero (st : EngineState) (now₁ now₂ : Nat)
    (hauth : st.is_authenticated = true) (hprog : st.sync_in_progress = false)
    (hids : ids_nodup st.db) (hlinks : links_nodup st.db)
    (hremnd : (st.remote.map KeepNote.id).Nodup)
    (hdbf : db_fresh st.db st.ctr) (hremf : rem_fresh st.remote st.ctr) :
    (sync (sync st [] false now₁).2 [] false now₂).1.stats =
      some ⟨0, 0, 0, 0⟩ := by
  have heqn1 := sync_success_eqn st [] now₁ hauth hprog
  obtain ⟨pids, plinks, pctr, pdbf, pready, _⟩ :=
    pull_loop_main now₁ st.remote ⟨0, 0, 0⟩ st.db st.ctr hids hlinks hremnd
      hdbf hremf
  -- run 1 push, through the R/Q preservation lemma
  obtain ⟨qready, qnopending, qlinks⟩ :=
    push_loop_RQ now₁
      (push_select (pull_from_keep now₁ st.remote st.db st.ctr).2.1)
      ⟨0, 0, 0, 0⟩ (pull_from_keep now₁ st.remote st.db st.ctr).2.1 st.remote
      (pull_from_keep now₁ st.remote st.db st.ctr).2.2
      (fun m hm => ⟨(List.mem_filter.mp hm).1, (List.mem_filter.mp hm).2⟩)
      (push_select_ids_nodup _ pids)
      (fun n hn hp => ⟨n, List.mem_filter.mpr ⟨hn, hp⟩, rfl⟩)
      pids plinks hremnd pdbf
      (fun k hk kn hkn => hremf k (Nat.le_trans pctr hk) kn hkn)
      (fun kn hkn => by
        obtain ⟨n, hn, hk, hle⟩ := pready kn hkn
        exact ⟨n, hn, hk, Or.inl hle⟩)
  -- the engine state after run 1
  have hauth1 : (sync st [] false now₁).2.is_authenticated = true := by
    rw [heqn1]
    exact hauth
  have hprog1 : (sync st [] false now₁).2.sync_in_progress = false := by
    rw [heqn1]
  have heqn2 := sync_success_eqn (sync st [] false now₁).2 [] now₂ hauth1 hprog1
  -- run 2 pull skips everything
  have hpull2 : pull_from_keep now₂ (sync st [] false now₁).2.remote
      (sync st [] false now₁).2.db (sync st [] false now₁).2.ctr =
      (⟨0, 0, (sync st [] false now₁).2.remote.length⟩,
        (sync st [] false now₁).2.db, (sync st [] false now₁).2.ctr) := by
    refine pull_from_keep_skip_all now₂ _ _ _ ?_
    intro kn hkn
    rw [heqn1] at hkn
    obtain ⟨n, hn, hk, hle⟩ := qready kn hkn
    refine ⟨n, ?_, hle⟩
    show find_by_keep_id (sync st [] false now₁).2.db kn.id = some n
    rw [heqn1]
    exact find_by_keep_id_ready _ kn.id n hn hk qlinks
  -- run 2 push selects nothing
  have hnp : ∀ n ∈ (sync st [] false now₁).2.db.notes, push_pred n = false := by
    intro n hn
    rw [heqn1] at hn
    exact qnopending n hn
  have hpush2 : push_to_keep [] now₂
      (pull_from_keep now₂ (sync st [] false now₁).2.remote
        (sync st [] false now₁).2.db (sync st [] false now₁).2.ctr).2.1
      (sync st [] false now₁).2.remote
      (pull_from_keep now₂ (sync st [] false now₁).2.remote
        (sync st [] false now₁).2.db (sync st [] false now₁).2.ctr).2.2 =
      (⟨0, 0, 0, 0⟩, (sync st [] false now₁).2.db,
        (sync st [] false now₁).2.remote, (sync st [] false now₁).2.ctr) := by
    rw [hpull2]
    exact push_to_keep_no_pending [] now₂ _ _ _ hnp
  rw [heqn2]
  show some _ = some ⟨0, 0, 0, 0⟩
  rw [hpull2] at hpush2
  rw [hpull2, hpush2]
  rfl

/-- C3 witness: the idempotence hypotheses at a concrete one-note store with
an empty remote. -/
theorem sync_twice_second_run_reports_zero_witness :
    (sync (sync c3_st [] false 5).2 [] false 6).1.stats = some ⟨0, 0, 0, 0⟩ :=
  sync_twice_second_run_reports_zero c3_st 5 6 (by rfl) (by rfl)
    (by unfold ids_nodup; decide) (by unfold links_nodup; decide) (by decide)
    (by
      intro k hk n hn
      have hn' : n ∈ [c3_note] := hn
      rcases List.mem_cons.mp hn' with rfl | hn'
      · exact ⟨ne_uuidOf (show 'A' ∈ ("A3" : String).data by decide) (by decide) k,
          fun hc => Option.noConfusion hc⟩
      · exact absurd hn' (List.not_mem_nil n))
    (by
      intro k hk kn hkn
      exact absurd hkn (List.not_mem_nil kn))

/-- C9 witness: a two-note store (one trashed and archived) exported and
imported into an empty store. -/
theorem export_import_round_trip_witness :
    (export_notes 20 c9_db).notes = get_all_notes c9_db true true ∧
    (import_notes (export_notes 20 c9_db) 21 c9_target 0).1 =
      (export_notes 20 c9_db).notes.length ∧
    (import_notes (export_notes 20 c9_db) 21 c9_target 0).2.1.notes.map
        note_content_key =
      c9_target.notes.map note_content_key ++
        (export_notes 20 c9_db).notes.map note_content_key :=
  export_import_round_trip c9_db c9_target 20 21 0
    (fun n hn => absurd hn (List.not_mem_nil n))

end KeepSyncNotes
